import Mathlib

/-! Replay of historical transactions: `cmd/state/commands/history22.go`.

A shallow embedding of the temporal state reader (`HistoryWrapper22`), of the
per-block executor (`runHistory22`) and of the block loop of `History22`,
together with theorems about ordinal assignment, the account decoder, trace
mode, cancellation and failure.

Conventions of the embedding.

* `uint64` values are natural numbers; every `++` and `+=` on a `uint64` is
  followed by `% 2 ^ 64`.
* A Go `[]byte` is its visible bytes (`len`) together with the bytes of the
  backing array between `len` and `cap`: an index expression `enc[i]` is
  checked against `len`, a slice expression `enc[lo:hi]` against `cap`, and a
  failed check is a runtime panic.
* The store (`libstate.Aggregator`), the block source and the execution engine
  (`core.ApplyTransaction`) are outside this file: they are parameters.
* Printed lines, store queries and byte accesses are recorded in lists, so
  that statements about "what was printed / asked / touched" can be written.
-/

namespace Erigon

/-! ## Bytes -/

/-- One byte. -/
abbrev Byte := Fin 256

/-- The value of `common.Address` / `common.Hash` as its bytes. -/
abbrev Address := List Byte

/-- A 32-byte hash value, as its bytes. -/
abbrev Hash := List Byte

/-- Conversion of a Go `int` to `uint64`. -/
def toUint64 (i : Int) : Nat := (i % 2 ^ 64).toNat

/-- A Go `[]byte` value: `nil`, or the `len` visible bytes followed by the
`cap - len` bytes of the backing array that lie past the length. -/
inductive GoBytes where
  | nil
  | arr (visible spare : List Byte)
deriving DecidableEq, Repr

namespace GoBytes

/-- The bytes `enc[0 .. len(enc))`. -/
def bytes : GoBytes → List Byte
  | nil => []
  | arr v _ => v

/-- The bytes `enc[0 .. cap(enc))`. -/
def backing : GoBytes → List Byte
  | nil => []
  | arr v s => v ++ s

/-- Go `len(enc)`. -/
def len (enc : GoBytes) : Nat := enc.bytes.length

/-- Go `cap(enc)`. -/
def cap (enc : GoBytes) : Nat := enc.backing.length

/-- Go `enc == nil`. -/
def isNil : GoBytes → Bool
  | nil => true
  | arr _ _ => false

end GoBytes

/-! ## Errors, printed lines, store queries -/

/-- Error values. `ext` is an error produced outside this file (store, block
source, execution engine); the other two are the wrappers built here with
`fmt.Errorf(... %w ...)`. -/
inductive Error where
  | ext (msg : String)
  | applyTx (i : Nat) (txHash : Hash) (cause : Error)
  | block (blockNum : Nat) (cause : Error)
deriving DecidableEq, Repr

/-- A call made to the versioned store, with the key(s) and the ordinal. -/
inductive Query where
  | accountData (key : List Byte) (txNum : Nat)
  | storage (addr key : List Byte) (txNum : Nat)
  | code (key : List Byte) (txNum : Nat)
  | codeSize (key : List Byte) (txNum : Nat)
deriving DecidableEq, Repr

/-- The lines written with `fmt.Printf`, one constructor per format string. -/
inductive Printed where
  | accountEmpty (address : Address)
  | accountPanic (address : Address) (enc : List Byte)
  | account (address : Address) (nonce balance : Nat) (codeHash : Hash)
  | err (e : Error)
  | storageEmpty (address : Address) (key : List Byte)
  | storage (address : Address) (key enc : List Byte)
  | code (address : Address) (enc : List Byte)
  | codeSize (address : Address) (size : Int)
  | txGas (i txNum gasUsed : Nat)
deriving DecidableEq, Repr

/-- What a run of a piece of code leaves behind, in order: the store queries,
the printed lines, and the byte ranges `[lo, hi)` of `enc` that were accessed
by an index or a slice expression. -/
structure Effects where
  queries : List Query := []
  out : List Printed := []
  reads : List (Nat × Nat) := []
deriving DecidableEq, Repr

/-- Code of the wrapper: it adds to the effects and either yields a value or
stops in a Go runtime panic (`none`). -/
def Go (α : Type) : Type := Effects → Effects × Option α

namespace Go

/-- Return a value, no effect. -/
def ret {α : Type} (a : α) : Go α := fun s => (s, some a)

/-- Sequencing: a panic stops the rest. -/
def andThen {α β : Type} (m : Go α) (f : α → Go β) : Go β := fun s =>
  match m s with
  | (s', some a) => f a s'
  | (s', none) => (s', none)

instance : Monad Go where
  pure := ret
  bind := andThen

/-- Run from no effects. -/
def run {α : Type} (m : Go α) : Effects × Option α := m {}

end Go

/-- Go `fmt.Printf`. -/
def printf (p : Printed) : Go Unit := fun s => ({ s with out := s.out ++ [p] }, some ())

/-- Record a call to the store. -/
def ask (q : Query) : Go Unit := fun s => ({ s with queries := s.queries ++ [q] }, some ())

/-- Go `int(enc[pos])`: panics unless `pos < len(enc)`. -/
def index (enc : GoBytes) (pos : Nat) : Go Nat := fun s =>
  match enc.bytes[pos]? with
  | some b => ({ s with reads := s.reads ++ [(pos, pos + 1)] }, some b.val)
  | none => (s, none)

/-- Go `enc[lo:hi]`: panics unless `lo <= hi <= cap(enc)`. -/
def slice (enc : GoBytes) (lo hi : Nat) : Go (List Byte) := fun s =>
  if lo ≤ hi ∧ hi ≤ enc.cap then
    ({ s with reads := s.reads ++ [(lo, hi)] }, some ((enc.backing.drop lo).take (hi - lo)))
  else (s, none)

/-! ## The account record -/

/-- The big-endian number written by a byte string. -/
def beNat (buf : List Byte) : Nat := buf.foldl (fun x b => x * 256 + b.val) 0

/-- Modelled from the spec: `bytesToUint64` is defined elsewhere in the
package. Section 4.1 says a nonce / incarnation segment is the big-endian
encoding of a 64-bit field, so the result is the big-endian number of the
bytes as a `uint64`. The spec is silent on segments longer than eight bytes;
no theorem below depends on the value there. -/
def bytesToUint64 (buf : List Byte) : Nat := beNat buf % 2 ^ 64

/-- Modelled from the spec: `accounts.Account` is declared in another package.
Section 3 gives it four fields: a 64-bit nonce, a big unsigned balance, a
code hash and a 64-bit incarnation. -/
structure Account where
  Nonce : Nat
  Balance : Nat
  CodeHash : Hash
  Incarnation : Nat
deriving DecidableEq, Repr

/-- Modelled from the spec: `Account.Reset` sets every field to its default
(section 3): zero numbers and the "no code" hash, which is a constant of the
other package and is taken as the parameter `emptyCodeHash`. -/
def Account.Reset (emptyCodeHash : Hash) : Account :=
  { Nonce := 0, Balance := 0, CodeHash := emptyCodeHash, Incarnation := 0 }

/-- Modelled from the spec: `Balance.SetBytes` reads the segment as a
big-endian unsigned integer (section 4.1, field 2). -/
def SetBytes (buf : List Byte) : Nat := beNat buf

/-- Go `copy(dst, src)`: overwrites the first `min(len(dst), len(src))`
bytes of `dst`. -/
def copy (dst src : List Byte) : List Byte := src.take dst.length ++ dst.drop src.length

/-! ## The store and the wrapper -/

/-- The versioned store `*libstate.Aggregator` as this file uses it: the
ordinal set by `SetTxNum` and the four "before ordinal" queries. -/
structure Aggregator where
  txNum : Nat
  ReadAccountDataBeforeTxNum : List Byte → Nat → Except Error GoBytes
  ReadAccountStorageBeforeTxNum : List Byte → List Byte → Nat → Except Error GoBytes
  ReadAccountCodeBeforeTxNum : List Byte → Nat → Except Error GoBytes
  ReadAccountCodeSizeBeforeTxNum : List Byte → Nat → Except Error Int

/-- Store method `SetTxNum`. -/
def Aggregator.SetTxNum (r : Aggregator) (txNum : Nat) : Aggregator := { r with txNum := txNum }

/-- The struct `HistoryWrapper22`. -/
structure HistoryWrapper22 where
  r : Aggregator
  txNum : Nat := 0
  trace : Bool := false

/-- Method `ReadAccountData`. The Go result pair `(*Account, error)` is
`.error err` for `(nil, err)`, `.ok none` for `(nil, nil)` and `.ok (some a)`
for `(&a, nil)`. Each `if n > 0 { field = ...; pos += n }` of the source is a
branch that yields the updated `(a, pos)`; the account type's default code
hash is the parameter `emptyCodeHash`. -/
def ReadAccountData (emptyCodeHash : Hash) (hw : HistoryWrapper22) (address : Address) :
    Go (Except Error (Option Account)) := do
  ask (.accountData address hw.txNum)
  match hw.r.ReadAccountDataBeforeTxNum address hw.txNum with
  | .error err => return .error err
  | .ok enc =>
    if enc.len = 0 then
      (if hw.trace then printf (.accountEmpty address) else pure ())
      return .ok none
    let a := Account.Reset emptyCodeHash
    let pos := 0
    let nonceBytes ← index enc pos
    let pos := pos + 1
    let (a, pos) ← (if nonceBytes > 0 then do
        let seg ← slice enc pos (pos + nonceBytes)
        pure ({ a with Nonce := bytesToUint64 seg }, pos + nonceBytes)
      else pure (a, pos))
    let balanceBytes ← index enc pos
    let pos := pos + 1
    let (a, pos) ← (if balanceBytes > 0 then do
        let seg ← slice enc pos (pos + balanceBytes)
        pure ({ a with Balance := SetBytes seg }, pos + balanceBytes)
      else pure (a, pos))
    let codeHashBytes ← index enc pos
    let pos := pos + 1
    let (a, pos) ← (if codeHashBytes > 0 then do
        let seg ← slice enc pos (pos + codeHashBytes)
        pure ({ a with CodeHash := copy a.CodeHash seg }, pos + codeHashBytes)
      else pure (a, pos))
    (if pos ≥ enc.len then printf (.accountPanic address enc.bytes) else pure ())
    let incBytes ← index enc pos
    let pos := pos + 1
    let a ← (if incBytes > 0 then do
        let seg ← slice enc pos (pos + incBytes)
        pure { a with Incarnation := bytesToUint64 seg }
      else pure a)
    (if hw.trace then printf (.account address a.Nonce a.Balance a.CodeHash) else pure ())
    return .ok (some a)

/-- Method `ReadAccountStorage`. -/
def ReadAccountStorage (hw : HistoryWrapper22) (address : Address) (incarnation : Nat)
    (key : Hash) : Go (Except Error GoBytes) := do
  let _ := incarnation
  ask (.storage address key hw.txNum)
  match hw.r.ReadAccountStorageBeforeTxNum address key hw.txNum with
  | .error err =>
    printf (.err err)
    return .error err
  | .ok enc =>
    (if hw.trace then
      (if enc.isNil then printf (.storageEmpty address key)
       else printf (.storage address key enc.bytes))
     else pure ())
    if enc.isNil then
      return .ok .nil
    return .ok enc

/-- Method `ReadAccountCode`. -/
def ReadAccountCode (hw : HistoryWrapper22) (address : Address) (incarnation : Nat)
    (codeHash : Hash) : Go (Except Error GoBytes) := do
  let _ := (incarnation, codeHash)
  ask (.code address hw.txNum)
  match hw.r.ReadAccountCodeBeforeTxNum address hw.txNum with
  | .error err => return .error err
  | .ok enc =>
    (if hw.trace then printf (.code address enc.bytes) else pure ())
    return .ok enc

/-- Method `ReadAccountCodeSize`. The Go result pair `(int, error)` is
`.error err` for `(0, err)` and `.ok size` for `(size, nil)`. -/
def ReadAccountCodeSize (hw : HistoryWrapper22) (address : Address) (incarnation : Nat)
    (codeHash : Hash) : Go (Except Error Int) := do
  let _ := (incarnation, codeHash)
  ask (.codeSize address hw.txNum)
  match hw.r.ReadAccountCodeSizeBeforeTxNum address hw.txNum with
  | .error err => return .error err
  | .ok size =>
    (if hw.trace then printf (.codeSize address size) else pure ())
    return .ok size

/-- Method `ReadAccountIncarnation`. -/
def ReadAccountIncarnation (_hw : HistoryWrapper22) (_address : Address) :
    Go (Except Error Nat) :=
  return .ok 0

/-! ## Blocks, the execution engine and the outside world -/

/-- A transaction: its hash (`tx.Hash()`) and the rest of it, which this file
never looks at. -/
structure Transaction where
  hash : Hash
  payload : List Byte := []
deriving DecidableEq, Repr

/-- The header fields this file reads. -/
structure Header where
  Number : Nat
  GasLimit : Nat := 0
deriving DecidableEq, Repr

/-- A block with its senders, as returned by `BlockWithSenders`. -/
structure Block where
  header : Header
  hash : Hash := []
  transactions : List Transaction
deriving DecidableEq, Repr

/-- The receipt of a transaction; `GasUsed` is the one field this file reads. -/
structure Receipt where
  GasUsed : Nat
  body : List Byte := []
deriving DecidableEq, Repr

/-- The chain configuration fields this file reads; `DAOForkBlock` may be nil. -/
structure ChainConfig where
  DAOForkSupport : Bool := false
  DAOForkBlock : Option Nat := none
deriving DecidableEq, Repr

/-- The VM configuration: the one field this file sets. -/
structure VmConfig where
  TraceJumpDest : Bool := false
deriving DecidableEq, Repr

/-- The execution context built for one transaction, reduced to what this
file does to it: `state.New(hw)`, an optional `misc.ApplyDAOHardFork(ibs)`,
and `ibs.Prepare(tx.Hash(), block.Hash(), i)`. Every read of the engine goes
through `stateReader`. -/
structure IntraBlockState where
  stateReader : HistoryWrapper22
  daoForkApplied : Bool := false
  thash : Hash := []
  bhash : Hash := []
  txIndex : Nat := 0

/-- Constructor `state.New(hw)`. -/
def New (hw : HistoryWrapper22) : IntraBlockState := { stateReader := hw }

/-- Call `misc.ApplyDAOHardFork(ibs)`. -/
def ApplyDAOHardFork (ibs : IntraBlockState) : IntraBlockState :=
  { ibs with daoForkApplied := true }

/-- Call `ibs.Prepare(thash, bhash, ti)`. -/
def IntraBlockState.Prepare (ibs : IntraBlockState) (thash bhash : Hash) (ti : Nat) :
    IntraBlockState :=
  { ibs with thash := thash, bhash := bhash, txIndex := ti }

/-- The collaborators of the driver.

* `ReadCanonicalHash`, `BlockWithSenders`: the block source.
* `ApplyTransaction`: the execution engine. Its arguments are the chain
  configuration, the gas pool, the execution context, the header, the
  transaction, the gas used so far and the VM configuration; on success it
  returns the receipt and the new values of the gas pool and of the used gas
  (both are pointers in the source). The fixed arguments of the source (the
  faker consensus engine, the no-op writer, `getHeader`) are part of it.
* `interruptCh`: what the non-blocking receive on the interrupt channel
  yields when it is polled at the end of the given block: `some v` when the
  signal handler has put `v` in the channel by then, `none` otherwise. -/
structure World where
  ReadCanonicalHash : Nat → Except Error Hash
  BlockWithSenders : Hash → Nat → Except Error (Option Block)
  ApplyTransaction : ChainConfig → Nat → IntraBlockState → Header → Transaction → Nat →
    VmConfig → Except Error (Receipt × Nat × Nat)
  interruptCh : Nat → Option Bool

/-- The command-line variables of the package that this file reads: `block`
(`uint64`, declared elsewhere in the package), `traceBlock` and `blockTo`
(`int`, both 0 unless given). -/
structure Flags where
  block : Nat
  traceBlock : Int := 0
  blockTo : Int := 0
deriving DecidableEq, Repr

/-! ## `runHistory22` -/

/-- One iteration of the transaction loop, recorded: the index and the
transaction, the arguments handed to the engine (the gas pool, the execution
context, whose `stateReader` is the wrapper as it is during the call, and the
used gas), what the engine returned, and the wrapper as the iteration leaves
it. -/
structure TxStep where
  idx : Nat
  tx : Transaction
  gp : Nat
  ibs : IntraBlockState
  usedGas : Nat
  res : Except Error (Receipt × Nat × Nat)
  after : HistoryWrapper22

/-- What `runHistory22` returns, `(txNum, receipts, err)`, and what it leaves:
the wrapper behind the pointer `hw`, the recorded iterations and the printed
lines. -/
structure RunResult where
  txNum : Nat
  receipts : List Receipt
  err : Option Error
  hw : HistoryWrapper22
  steps : List TxStep
  out : List Printed

/-- The variables of the transaction loop. -/
structure RunVars where
  hw : HistoryWrapper22
  gp : Nat
  usedGas : Nat
  receipts : List Receipt
  daoBlock : Bool
  txNum : Nat
  steps : List TxStep
  out : List Printed

/-- The loop `for i, tx := range block.Transactions()` of `runHistory22`,
from index `i` on the remaining transactions. -/
def runHistory22.loop (W : World) (flags : Flags) (blockNum : Nat) (chainConfig : ChainConfig)
    (block : Block) (header : Header) (vmConfig : VmConfig) :
    List Transaction → Nat → RunVars → RunResult
  | [], _, x =>
    { txNum := x.txNum, receipts := x.receipts, err := none, hw := x.hw, steps := x.steps,
      out := x.out }
  | tx :: rest, i, x =>
    let hw := { x.hw with r := x.hw.r.SetTxNum x.txNum }
    let hw := { hw with txNum := x.txNum }
    let ibs := New hw
    let ibs := if x.daoBlock then ApplyDAOHardFork ibs else ibs
    let daoBlock := if x.daoBlock then false else x.daoBlock
    let ibs := ibs.Prepare tx.hash block.hash i
    match W.ApplyTransaction chainConfig x.gp ibs header tx x.usedGas vmConfig with
    | .error err =>
      { txNum := 0, receipts := [], err := some (.applyTx i tx.hash err), hw := hw,
        steps := x.steps ++
          [{ idx := i, tx := tx, gp := x.gp, ibs := ibs, usedGas := x.usedGas, res := .error err,
             after := hw }],
        out := x.out }
    | .ok (receipt, gp, usedGas) =>
      let out :=
        if flags.traceBlock ≠ 0 ∧ blockNum = toUint64 flags.traceBlock then
          x.out ++ [.txGas i x.txNum receipt.GasUsed]
        else x.out
      let receipts := x.receipts ++ [receipt]
      let txNum := (x.txNum + 1) % 2 ^ 64
      let hw' := { hw with r := hw.r.SetTxNum txNum }
      let hw' := { hw' with txNum := txNum }
      runHistory22.loop W flags blockNum chainConfig block header vmConfig rest (i + 1)
        { hw := hw', gp := gp, usedGas := usedGas, receipts := receipts, daoBlock := daoBlock,
          txNum := txNum,
          steps := x.steps ++
            [{ idx := i, tx := tx, gp := x.gp, ibs := ibs, usedGas := x.usedGas,
               res := .ok (receipt, gp, usedGas), after := hw' }],
          out := out }

/-- Function `runHistory22`. The parameters `ww` and `getHeader` of the source
are only handed on to the engine and are part of `W.ApplyTransaction`. -/
def runHistory22 (W : World) (flags : Flags) (trace : Bool) (blockNum txNumStart : Nat)
    (hw : HistoryWrapper22) (chainConfig : ChainConfig) (block : Block) (vmConfig : VmConfig) :
    RunResult :=
  let _ := trace
  let header := block.header
  let vmConfig := { vmConfig with TraceJumpDest := true }
  let gp := 0 + block.header.GasLimit
  let usedGas := 0
  let daoBlock := chainConfig.DAOForkSupport && chainConfig.DAOForkBlock.isSome &&
    (chainConfig.DAOForkBlock == some block.header.Number)
  let txNum := txNumStart
  runHistory22.loop W flags blockNum chainConfig block header vmConfig block.transactions 0
    { hw := hw, gp := gp, usedGas := usedGas, receipts := [], daoBlock := daoBlock,
      txNum := txNum, steps := [], out := [] }

/-! ## `History22` -/

/-- The lines written with `log.Info` in the block loop (the periodic
progress line, which depends on the clock only, is left out). -/
inductive LogLine where
  | blockIsNil (blockNum : Nat)
  | interrupted (blockNum : Nat)
deriving DecidableEq, Repr

/-- The variables of the block loop, the store `h` behind its pointer, the
log, and the recorded calls of `runHistory22` with their block numbers. -/
structure LoopState where
  interrupt : Bool := false
  blockNum : Nat := 0
  txNum : Nat := 2
  h : Aggregator
  log : List LogLine := []
  runs : List (Nat × RunResult) := []

/-- What `History22` returns (`err`) and the state it returns in. -/
structure Outcome where
  err : Option Error
  final : LoopState

/-- The loop `for !interrupt` of `History22`; `none` when the fuel runs out
before the loop ends. -/
def History22.loop (W : World) (flags : Flags) (chainConfig : ChainConfig) (vmConfig : VmConfig) :
    Nat → LoopState → Option Outcome
  | 0, _ => none
  | fuel + 1, st =>
    if st.interrupt then some { err := none, final := st }
    else
      let blockNum := (st.blockNum + 1) % 2 ^ 64
      let st := { st with blockNum := blockNum }
      if blockNum > toUint64 flags.blockTo then some { err := none, final := st }
      else
        match W.ReadCanonicalHash blockNum with
        | .error err => some { err := some err, final := st }
        | .ok blockHash =>
          match W.BlockWithSenders blockHash blockNum with
          | .error err => some { err := some err, final := st }
          | .ok none =>
            some { err := none, final := { st with log := st.log ++ [.blockIsNil blockNum] } }
          | .ok (some b) =>
            if blockNum ≤ flags.block then
              History22.loop W flags chainConfig vmConfig fuel
                { st with
                  txNum := (st.txNum + (b.transactions.length % 2 ^ 64 + 2) % 2 ^ 64) % 2 ^ 64 }
            else
              let readWrapper : HistoryWrapper22 := { r := st.h }
              let readWrapper :=
                if flags.traceBlock ≠ 0 then
                  { readWrapper with trace := decide (blockNum = toUint64 flags.traceBlock) }
                else readWrapper
              let txNum := (st.txNum + 1) % 2 ^ 64
              let run := runHistory22 W flags false blockNum txNum readWrapper chainConfig b vmConfig
              let st := { st with txNum := run.txNum, h := run.hw.r,
                                  runs := st.runs ++ [(blockNum, run)] }
              match run.err with
              | some err => some { err := some (.block blockNum err), final := st }
              | none =>
                let st := { st with txNum := (st.txNum + 1) % 2 ^ 64 }
                match W.interruptCh blockNum with
                | some v =>
                  History22.loop W flags chainConfig vmConfig fuel
                    { st with interrupt := v, log := st.log ++ [.interrupted blockNum] }
                | none => History22.loop W flags chainConfig vmConfig fuel st

/-- Function `History22`, from the point where the databases, the store `h`
and the block reader are open: `interrupt := false`, `blockNum := 0`,
`txNum := 2`, then the loop. `chainConfig` is `genesis.Config` and the VM
configuration is `vm.Config{}`. -/
def History22 (W : World) (flags : Flags) (chainConfig : ChainConfig) (h : Aggregator)
    (fuel : Nat) : Option Outcome :=
  History22.loop W flags chainConfig {} fuel { interrupt := false, blockNum := 0, txNum := 2, h := h }

/-! ## The encoding of section 4.1, as the specification words it -/

/-- Digits of `n` in base 256, most significant first, on top of `acc`. -/
def minimalBEAux : Nat → Nat → List Byte → List Byte
  | 0, _, acc => acc
  | fuel + 1, n, acc =>
    if n = 0 then acc
    else minimalBEAux fuel (n / 256) (⟨n % 256, Nat.mod_lt _ (by decide)⟩ :: acc)

/-- The minimal big-endian encoding of a number: no leading zero byte, and
zero is the empty string. -/
def minimalBE (n : Nat) : List Byte := minimalBEAux n n []

/-- One segment: the length byte, then the bytes. -/
def segment (seg : List Byte) : List Byte :=
  (⟨seg.length % 256, Nat.mod_lt _ (by decide)⟩ : Byte) :: seg

/-- The encoded account of section 4.1: `L0 ++ nonce ++ L1 ++ balance ++ L2 ++
code hash ++ L3 ++ incarnation`, an absent code hash being a zero-length
segment. -/
def encodeAccount (nonce balance : Nat) (codeHash : Option Hash) (incarnation : Nat) :
    List Byte :=
  segment (minimalBE nonce) ++ segment (minimalBE balance) ++ segment (codeHash.getD [])
    ++ segment (minimalBE incarnation)

/-- The byte ranges accessed for one segment at `pos`: the length byte, then
the `n` bytes when `n > 0`. -/
def segReads (pos n : Nat) : List (Nat × Nat) :=
  (pos, pos + 1) :: (if n > 0 then [(pos + 1, pos + 1 + n)] else [])

/-! ## Comparing two runs up to what they print -/

/-- Two runs end alike: same store queries, same byte accesses, same result
(or both panic); only the printed lines may differ. -/
def agree {α : Type} (x y : Effects × Option α) : Prop :=
  x.1.queries = y.1.queries ∧ x.1.reads = y.1.reads ∧ x.2 = y.2

/-- Two pieces of code that, started from effects with the same queries and
accesses, end alike. -/
def Sim {α : Type} (m m' : Go α) : Prop :=
  ∀ s s', s.queries = s'.queries → s.reads = s'.reads → agree (m s) (m' s')

/-! ## Complete input, and instances to run the definitions on -/

/-- The four length bytes `n0 .. n3` are at their places inside `v`, and each
segment ends inside the backing array `v ++ sp`. -/
def Complete (v sp : List Byte) (n0 n1 n2 n3 : Byte) : Prop :=
  v[0]? = some n0 ∧ 1 + n0.val ≤ (v ++ sp).length ∧
  v[1 + n0.val]? = some n1 ∧ 1 + n0.val + 1 + n1.val ≤ (v ++ sp).length ∧
  v[1 + n0.val + 1 + n1.val]? = some n2 ∧
  1 + n0.val + 1 + n1.val + 1 + n2.val ≤ (v ++ sp).length ∧
  v[1 + n0.val + 1 + n1.val + 1 + n2.val]? = some n3 ∧
  1 + n0.val + 1 + n1.val + 1 + n2.val + 1 + n3.val ≤ (v ++ sp).length

/-- A store that answers every byte query with `enc` and every size query with
its length. -/
def constStore (enc : GoBytes) : Aggregator :=
  { txNum := 0
    ReadAccountDataBeforeTxNum := fun _ _ => .ok enc
    ReadAccountStorageBeforeTxNum := fun _ _ _ => .ok enc
    ReadAccountCodeBeforeTxNum := fun _ _ => .ok enc
    ReadAccountCodeSizeBeforeTxNum := fun _ _ => .ok enc.len }

/-- Thirty-two zero bytes, standing for the "no code" hash in examples. -/
def zeroHash : Hash := List.replicate 32 0

/-! ## Names for parts of the driver, hypotheses of the theorems, example worlds -/

/-- The wrapper after `hw.r.SetTxNum(txNum); hw.txNum = txNum`. -/
def stamp (hw : HistoryWrapper22) (txNum : Nat) : HistoryWrapper22 :=
  { r := hw.r.SetTxNum txNum, txNum := txNum, trace := hw.trace }

/-- The execution context built in iteration `i` for `tx`. -/
def stepCtx (block : Block) (tx : Transaction) (i : Nat) (x : RunVars) : IntraBlockState :=
  (if x.daoBlock then ApplyDAOHardFork (New (stamp x.hw x.txNum))
    else New (stamp x.hw x.txNum)).Prepare tx.hash block.hash i

/-- The loop variables after a successful iteration `i`. -/
def varsAfter (flags : Flags) (blockNum : Nat) (block : Block) (tx : Transaction) (i : Nat)
    (x : RunVars) (rc : Receipt × Nat × Nat) : RunVars :=
  { hw := stamp x.hw ((x.txNum + 1) % 2 ^ 64), gp := rc.2.1, usedGas := rc.2.2,
    receipts := x.receipts ++ [rc.1],
    daoBlock := if x.daoBlock then false else x.daoBlock,
    txNum := (x.txNum + 1) % 2 ^ 64,
    steps := x.steps ++ [{ idx := i, tx := tx, gp := x.gp, ibs := stepCtx block tx i x,
                           usedGas := x.usedGas, res := .ok rc,
                           after := stamp x.hw ((x.txNum + 1) % 2 ^ 64) }],
    out := if flags.traceBlock ≠ 0 ∧ blockNum = toUint64 flags.traceBlock then
        x.out ++ [.txGas i x.txNum rc.1.GasUsed]
      else x.out }

/-- The receipt recorded in a step, if the engine returned one. -/
def TxStep.receipt (st : TxStep) : Option Receipt :=
  match st.res with
  | .ok rc => some rc.1
  | .error _ => none

/-- Code that makes no store query. -/
def Quiet {α : Type} (m : Go α) : Prop := ∀ s, (m s).1.queries = s.queries

/-- The variables of the transaction loop at its start. -/
def initVars (txNumStart : Nat) (hw : HistoryWrapper22) (cc : ChainConfig) (block : Block) :
    RunVars :=
  { hw := hw, gp := 0 + block.header.GasLimit, usedGas := 0, receipts := [],
    daoBlock := cc.DAOForkSupport && cc.DAOForkBlock.isSome &&
      (cc.DAOForkBlock == some block.header.Number),
    txNum := txNumStart, steps := [], out := [] }

/-- The wrapper `History22` builds for block `bn` over the store `h`. -/
def wrapperFor (flags : Flags) (h : Aggregator) (bn : Nat) : HistoryWrapper22 :=
  if flags.traceBlock ≠ 0 then
    { r := h, txNum := 0, trace := decide (bn = toUint64 flags.traceBlock) }
  else { r := h, txNum := 0, trace := false }

/-- The call of `runHistory22` that `History22` makes for block `b`, numbered
`bn`, from the loop state `st`. -/
def runOf (W : World) (flags : Flags) (cc : ChainConfig) (vc : VmConfig) (st : LoopState)
    (bn : Nat) (b : Block) : RunResult :=
  runHistory22 W flags false bn ((st.txNum + 1) % 2 ^ 64) (wrapperFor flags st.h bn) cc b vc

/-- The loop state once block `bn` has been run and the post-block ordinal
consumed. -/
def afterRun (st : LoopState) (bn : Nat) (run : RunResult) : LoopState :=
  { interrupt := st.interrupt, blockNum := bn, txNum := (run.txNum + 1) % 2 ^ 64, h := run.hw.r,
    log := st.log, runs := st.runs ++ [(bn, run)] }

/-- The loop state once block `bn` has been skipped. -/
def afterSkip (st : LoopState) (bn : Nat) (b : Block) : LoopState :=
  { interrupt := st.interrupt, blockNum := bn,
    txNum := (st.txNum + (b.transactions.length % 2 ^ 64 + 2) % 2 ^ 64) % 2 ^ 64, h := st.h,
    log := st.log, runs := st.runs }

/-- The sum over the blocks of `c_i + 2`. -/
def ordinalSum (blocks : List Block) : Nat :=
  (blocks.map (fun b => b.transactions.length + 2)).sum

/-- The block source holds `blocks` as blocks `1 .. N` and nothing at `N + 1`:
every lookup the loop can make (up to the stop block) succeeds and returns
that block, or nil past the last one. -/
def Serves (W : World) (flags : Flags) (blocks : List Block) : Prop :=
  ∀ n, 1 ≤ n → n ≤ blocks.length + 1 → n ≤ toUint64 flags.blockTo →
    ∃ hash, W.ReadCanonicalHash n = .ok hash ∧ W.BlockWithSenders hash n = .ok (blocks[n - 1]?)

/-- No interrupt is observed: every poll of the channel finds it empty. -/
def NoInterrupt (W : World) : Prop := ∀ n, W.interruptCh n = none

/-- A block numbered `n` with `k` transactions, whose hashes are `[0], [1], ..`. -/
def demoBlock (n k : Nat) : Block :=
  { header := { Number := n }
    transactions := (List.range k).map
      (fun i => { hash := [(⟨i % 256, Nat.mod_lt _ (by decide)⟩ : Byte)] }) }

/-- A world over the given blocks (looked up by header number): the engine
returns a receipt for every transaction except the one whose hash is `bad`,
and the interrupt channel is `sig`. -/
def demoWorld (blocks : List Block) (bad : Option Hash) (sig : Nat → Option Bool) : World :=
  { ReadCanonicalHash := fun _ => .ok []
    BlockWithSenders := fun _ n => .ok (blocks.find? (fun b => b.header.Number == n))
    ApplyTransaction := fun _ gp _ _ tx ug _ =>
      if some tx.hash = bad then .error (.ext "execution failed")
      else .ok ({ GasUsed := 21000 }, gp, ug + 21000)
    interruptCh := sig }

/-- A store whose every answer shows the ordinal it was asked at: byte queries
return the one byte `txNum % 256`, the size query returns `txNum`. -/
def probeStore : Aggregator :=
  { txNum := 0
    ReadAccountDataBeforeTxNum := fun _ t => .ok (.arr [⟨t % 256, Nat.mod_lt _ (by decide)⟩] [])
    ReadAccountStorageBeforeTxNum :=
      fun _ _ t => .ok (.arr [⟨t % 256, Nat.mod_lt _ (by decide)⟩] [])
    ReadAccountCodeBeforeTxNum := fun _ t => .ok (.arr [⟨t % 256, Nat.mod_lt _ (by decide)⟩] [])
    ReadAccountCodeSizeBeforeTxNum := fun _ t => .ok t }

/-- A world whose engine makes one storage read through the wrapper it is
given and reports what it saw: `GasUsed` is the wrapper's `txNum` field and
`body` is the bytes the read returned. -/
def probeWorld : World :=
  { ReadCanonicalHash := fun _ => .ok []
    BlockWithSenders := fun _ _ => .ok none
    ApplyTransaction := fun _ gp ibs _ _ ug _ =>
      .ok ({ GasUsed := ibs.stateReader.txNum,
             body := match (ReadAccountStorage ibs.stateReader [] 0 []).run.2 with
               | some (.ok enc) => enc.bytes
               | _ => [] }, gp, ug)
    interruptCh := fun _ => none }

/-- No transaction fails: on every transaction of every block, called with the
chain configuration, that block's header and the VM configuration that
`runHistory22` passes, and with an execution context prepared for that
transaction, `W.ApplyTransaction` returns a receipt, whatever the gas values
and the rest of the context. -/
def NoTxFails (W : World) (cc : ChainConfig) (vc : VmConfig) (blocks : List Block) : Prop :=
  ∀ b ∈ blocks, ∀ tx ∈ b.transactions, ∀ gp ibs ug,
    ibs.thash = tx.hash → ibs.bhash = b.hash →
    ∃ rc, W.ApplyTransaction cc gp ibs b.header tx ug { vc with TraceJumpDest := true } = .ok rc

/-! # Theorems -/

/-! ## Bytes and the primitives of the wrapper -/

theorem index_run (v sp : List Byte) (pos : Nat) (b : Byte) (s : Effects) (h : v[pos]? = some b) :
    index (.arr v sp) pos s = ({ s with reads := s.reads ++ [(pos, pos + 1)] }, some b.val) := by
  simp [index, GoBytes.bytes, h]

theorem slice_run (v sp : List Byte) (lo n : Nat) (s : Effects) (h : lo + n ≤ (v ++ sp).length) :
    slice (.arr v sp) lo (lo + n) s
      = ({ s with reads := s.reads ++ [(lo, lo + n)] }, some (((v ++ sp).drop lo).take n)) := by
  have hc : lo + n ≤ (GoBytes.arr v sp).cap := h
  simp only [slice, hc, Nat.le_add_right, and_self, if_true, GoBytes.backing,
    Nat.add_sub_cancel_left]

theorem Go.pure_apply {α : Type} (a : α) (s : Effects) : (pure a : Go α) s = (s, some a) := rfl

theorem stage_run {α : Type} (v sp : List Byte) (pos n : Nat) (upd : List Byte → α) (a : α)
    (s : Effects) (hlen : pos + n ≤ (v ++ sp).length) (h0 : n = 0 → upd [] = a) :
    (if n > 0 then (slice (.arr v sp) pos (pos + n)).andThen (fun seg => pure (upd seg, pos + n))
      else pure (a, pos)) s
    = ({ s with reads := s.reads ++ (if n > 0 then [(pos, pos + n)] else []) },
        some (upd (((v ++ sp).drop pos).take n), pos + n)) := by
  by_cases hn : n > 0
  · simp only [hn, if_true, Go.andThen, slice_run v sp pos n s hlen]
    rfl
  · have hz : n = 0 := by omega
    subst hz
    simp only [gt_iff_lt, lt_self_iff_false, if_false, List.append_nil, List.take_zero, h0 rfl,
      Nat.add_zero]
    rfl

theorem stage_run_last {α : Type} (v sp : List Byte) (pos n : Nat) (upd : List Byte → α) (a : α)
    (s : Effects) (hlen : pos + n ≤ (v ++ sp).length) (h0 : n = 0 → upd [] = a) :
    (if n > 0 then (slice (.arr v sp) pos (pos + n)).andThen (fun seg => pure (upd seg))
      else pure a) s
    = ({ s with reads := s.reads ++ (if n > 0 then [(pos, pos + n)] else []) },
        some (upd (((v ++ sp).drop pos).take n))) := by
  by_cases hn : n > 0
  · simp only [hn, if_true, Go.andThen, slice_run v sp pos n s hlen]
    rfl
  · have hz : n = 0 := by omega
    subst hz
    simp only [gt_iff_lt, lt_self_iff_false, if_false, List.append_nil, List.take_zero, h0 rfl]
    rfl

/-! ## The decoder on input whose four length bytes and segments are there -/

/-- The decoder, run on bytes `v` (backing array `v ++ sp`) in which the four
length bytes `n0 .. n3` are at their places inside `v` and each segment ends
inside the backing array: no panic, no error, and the record is read off the
backing array. -/
theorem decode_run_cap (ech : Hash) (hw : HistoryWrapper22) (address : Address)
    (v sp : List Byte) (n0 n1 n2 n3 : Byte)
    (hst : hw.r.ReadAccountDataBeforeTxNum address hw.txNum = .ok (.arr v sp))
    (hi0 : v[0]? = some n0) (hl0 : 1 + n0.val ≤ (v ++ sp).length)
    (hi1 : v[1 + n0.val]? = some n1) (hl1 : 1 + n0.val + 1 + n1.val ≤ (v ++ sp).length)
    (hi2 : v[1 + n0.val + 1 + n1.val]? = some n2)
    (hl2 : 1 + n0.val + 1 + n1.val + 1 + n2.val ≤ (v ++ sp).length)
    (hi3 : v[1 + n0.val + 1 + n1.val + 1 + n2.val]? = some n3)
    (hl3 : 1 + n0.val + 1 + n1.val + 1 + n2.val + 1 + n3.val ≤ (v ++ sp).length) :
    (ReadAccountData ech hw address).run =
      ({ queries := [.accountData address hw.txNum],
         out := if hw.trace then
             [.account address (bytesToUint64 (((v ++ sp).drop 1).take n0.val))
                (SetBytes (((v ++ sp).drop (1 + n0.val + 1)).take n1.val))
                (copy ech (((v ++ sp).drop (1 + n0.val + 1 + n1.val + 1)).take n2.val))]
           else [],
         reads := segReads 0 n0.val ++ segReads (1 + n0.val) n1.val
           ++ segReads (1 + n0.val + 1 + n1.val) n2.val
           ++ segReads (1 + n0.val + 1 + n1.val + 1 + n2.val) n3.val },
       some (.ok (some
         { Nonce := bytesToUint64 (((v ++ sp).drop 1).take n0.val),
           Balance := SetBytes (((v ++ sp).drop (1 + n0.val + 1)).take n1.val),
           CodeHash := copy ech (((v ++ sp).drop (1 + n0.val + 1 + n1.val + 1)).take n2.val),
           Incarnation := bytesToUint64
             (((v ++ sp).drop (1 + n0.val + 1 + n1.val + 1 + n2.val + 1)).take n3.val) }))) := by
  have hv : 1 + n0.val + 1 + n1.val + 1 + n2.val < v.length := by
    rcases Nat.lt_or_ge (1 + n0.val + 1 + n1.val + 1 + n2.val) v.length with h | h
    · exact h
    · rw [List.getElem?_eq_none h] at hi3; cases hi3
  have hne : ¬ (GoBytes.arr v sp).len = 0 := by
    simp only [GoBytes.len, GoBytes.bytes]; omega
  unfold ReadAccountData
  simp only [Go.run, bind, ask, hst, hne, if_false, Nat.zero_add]
  simp only [Go.andThen, ask, Go.pure_apply]
  rw [index_run v sp 0 n0 _ hi0]
  dsimp only
  rw [stage_run v sp 1 n0.val _ _ _ hl0]
  swap
  · intro _; rfl
  dsimp only
  rw [index_run v sp _ n1 _ hi1]
  dsimp only
  rw [stage_run v sp _ n1.val _ _ _ hl1]
  swap
  · intro _; rfl
  dsimp only
  rw [index_run v sp _ n2 _ hi2]
  dsimp only
  rw [stage_run v sp _ n2.val _ _ _ hl2]
  swap
  · intro _; simp [copy]
  dsimp only
  have hd : ¬ (1 + n0.val + 1 + n1.val + 1 + n2.val ≥ (GoBytes.arr v sp).len) := by
    simp only [GoBytes.len, GoBytes.bytes]; omega
  simp only [hd, if_false, Go.pure_apply]
  rw [index_run v sp _ n3 _ hi3]
  dsimp only
  rw [stage_run_last v sp _ n3.val _ _ _ hl3]
  swap
  · intro _; rfl
  dsimp only
  cases hw.trace <;> simp [printf, Go.pure_apply, segReads, Account.Reset]

theorem getElem?_seg (pre post : List Byte) (b : Byte) (p : Nat) (hp : p = pre.length) :
    (pre ++ b :: post)[p]? = some b := by
  subst hp
  rw [List.getElem?_append_right (Nat.le_refl _)]
  simp

theorem drop_take_seg (pre seg post : List Byte) (p n : Nat) (hp : p = pre.length)
    (hn : n = seg.length) : ((pre ++ (seg ++ post)).drop p).take n = seg := by
  subst hp hn; simp

theorem segment_eq (seg : List Byte) (h : seg.length < 256) :
    segment seg = (⟨seg.length, h⟩ : Byte) :: seg := by
  simp [segment, Nat.mod_eq_of_lt h]

/-- The decoder on four complete segments followed by anything: the record is
made of the four segments. -/
theorem decode_segments (ech : Hash) (hw : HistoryWrapper22) (address : Address)
    (s0 s1 s2 s3 rest sp : List Byte)
    (h0 : s0.length < 256) (h1 : s1.length < 256) (h2 : s2.length < 256) (h3 : s3.length < 256)
    (hst : hw.r.ReadAccountDataBeforeTxNum address hw.txNum
      = .ok (.arr (segment s0 ++ segment s1 ++ segment s2 ++ segment s3 ++ rest) sp)) :
    (ReadAccountData ech hw address).run =
      ({ queries := [.accountData address hw.txNum],
         out := if hw.trace then
             [.account address (bytesToUint64 s0) (SetBytes s1) (copy ech s2)]
           else [],
         reads := segReads 0 s0.length ++ segReads (1 + s0.length) s1.length
           ++ segReads (1 + s0.length + 1 + s1.length) s2.length
           ++ segReads (1 + s0.length + 1 + s1.length + 1 + s2.length) s3.length },
       some (.ok (some
         { Nonce := bytesToUint64 s0, Balance := SetBytes s1, CodeHash := copy ech s2,
           Incarnation := bytesToUint64 s3 }))) := by
  rw [segment_eq s0 h0, segment_eq s1 h1, segment_eq s2 h2, segment_eq s3 h3] at hst
  generalize hv : (⟨s0.length, h0⟩ : Byte) :: s0 ++ (⟨s1.length, h1⟩ : Byte) :: s1
    ++ (⟨s2.length, h2⟩ : Byte) :: s2 ++ (⟨s3.length, h3⟩ : Byte) :: s3 ++ rest = v at hst
  have hlen : v.length = 1 + s0.length + 1 + s1.length + 1 + s2.length + 1 + s3.length
      + rest.length := by
    subst hv; simp; omega
  have hi0 : v[0]? = some (⟨s0.length, h0⟩ : Byte) := by subst hv; simp
  have hi1 : v[1 + s0.length]? = some (⟨s1.length, h1⟩ : Byte) := by
    have := getElem?_seg ((⟨s0.length, h0⟩ : Byte) :: s0)
      (s1 ++ (⟨s2.length, h2⟩ : Byte) :: s2 ++ (⟨s3.length, h3⟩ : Byte) :: s3 ++ rest)
      ⟨s1.length, h1⟩ (1 + s0.length) (by simp; omega)
    subst hv; simpa using this
  have hi2 : v[1 + s0.length + 1 + s1.length]? = some (⟨s2.length, h2⟩ : Byte) := by
    have := getElem?_seg ((⟨s0.length, h0⟩ : Byte) :: s0 ++ (⟨s1.length, h1⟩ : Byte) :: s1)
      (s2 ++ (⟨s3.length, h3⟩ : Byte) :: s3 ++ rest)
      ⟨s2.length, h2⟩ (1 + s0.length + 1 + s1.length) (by simp; omega)
    subst hv; simpa using this
  have hi3 : v[1 + s0.length + 1 + s1.length + 1 + s2.length]? = some (⟨s3.length, h3⟩ : Byte) := by
    have := getElem?_seg ((⟨s0.length, h0⟩ : Byte) :: s0 ++ (⟨s1.length, h1⟩ : Byte) :: s1
        ++ (⟨s2.length, h2⟩ : Byte) :: s2) (s3 ++ rest)
      ⟨s3.length, h3⟩ (1 + s0.length + 1 + s1.length + 1 + s2.length) (by simp; omega)
    subst hv; simpa using this
  have d0 : ((v ++ sp).drop 1).take s0.length = s0 := by
    have := drop_take_seg [(⟨s0.length, h0⟩ : Byte)] s0
      ((⟨s1.length, h1⟩ : Byte) :: s1 ++ (⟨s2.length, h2⟩ : Byte) :: s2
        ++ (⟨s3.length, h3⟩ : Byte) :: s3 ++ rest ++ sp) 1 s0.length rfl rfl
    subst hv; simp
  have d1 : ((v ++ sp).drop (1 + s0.length + 1)).take s1.length = s1 := by
    have := drop_take_seg ((⟨s0.length, h0⟩ : Byte) :: s0 ++ [(⟨s1.length, h1⟩ : Byte)]) s1
      ((⟨s2.length, h2⟩ : Byte) :: s2 ++ (⟨s3.length, h3⟩ : Byte) :: s3 ++ rest ++ sp)
      (1 + s0.length + 1) s1.length (by simp; omega) rfl
    subst hv; simpa using this
  have d2 : ((v ++ sp).drop (1 + s0.length + 1 + s1.length + 1)).take s2.length = s2 := by
    have := drop_take_seg ((⟨s0.length, h0⟩ : Byte) :: s0 ++ (⟨s1.length, h1⟩ : Byte) :: s1
        ++ [(⟨s2.length, h2⟩ : Byte)]) s2
      ((⟨s3.length, h3⟩ : Byte) :: s3 ++ rest ++ sp)
      (1 + s0.length + 1 + s1.length + 1) s2.length (by simp; omega) rfl
    subst hv; simpa using this
  have d3 : ((v ++ sp).drop (1 + s0.length + 1 + s1.length + 1 + s2.length + 1)).take s3.length
      = s3 := by
    have := drop_take_seg ((⟨s0.length, h0⟩ : Byte) :: s0 ++ (⟨s1.length, h1⟩ : Byte) :: s1
        ++ (⟨s2.length, h2⟩ : Byte) :: s2 ++ [(⟨s3.length, h3⟩ : Byte)]) s3 (rest ++ sp)
      (1 + s0.length + 1 + s1.length + 1 + s2.length + 1) s3.length (by simp; omega) rfl
    subst hv; simpa using this
  have hcap : (v ++ sp).length = v.length + sp.length := List.length_append _ _
  have key := decode_run_cap ech hw address v sp ⟨s0.length, h0⟩ ⟨s1.length, h1⟩
    ⟨s2.length, h2⟩ ⟨s3.length, h3⟩ hst hi0 (by simp only [hcap]; omega) hi1
    (by simp only [hcap]; omega) hi2 (by simp only [hcap]; omega) hi3
    (by simp only [hcap]; omega)
  simp only [d0, d1, d2, d3] at key
  exact key

/-! ## The minimal big-endian encoding -/

theorem foldl_be (l : List Byte) (x : Nat) :
    l.foldl (fun x b => x * 256 + b.val) x = x * 256 ^ l.length + beNat l := by
  induction l generalizing x with
  | nil => simp [beNat]
  | cons b t ih =>
    simp only [List.foldl_cons, beNat, List.length_cons]
    rw [ih, ih (0 * 256 + b.val)]
    ring

theorem beNat_cons (b : Byte) (t : List Byte) :
    beNat (b :: t) = b.val * 256 ^ t.length + beNat t := by
  simp only [beNat, List.foldl_cons]
  rw [foldl_be]
  simp [beNat]

theorem beNat_minimalBEAux (fuel n : Nat) (acc : List Byte) (h : n ≤ fuel) :
    beNat (minimalBEAux fuel n acc) = n * 256 ^ acc.length + beNat acc := by
  induction fuel generalizing n acc with
  | zero =>
    have : n = 0 := by omega
    subst this
    simp [minimalBEAux]
  | succ fuel ih =>
    unfold minimalBEAux
    by_cases hn : n = 0
    · simp [hn]
    · simp only [hn, if_false]
      rw [ih (n / 256) _ (by omega), beNat_cons]
      simp only [List.length_cons]
      have := Nat.div_add_mod n 256
      calc n / 256 * 256 ^ (acc.length + 1) + (n % 256 * 256 ^ acc.length + beNat acc)
          = (256 * (n / 256) + n % 256) * 256 ^ acc.length + beNat acc := by ring
        _ = n * 256 ^ acc.length + beNat acc := by rw [this]

/-- Decoding the minimal encoding gives the number back. -/
theorem beNat_minimalBE (n : Nat) : beNat (minimalBE n) = n := by
  have := beNat_minimalBEAux n n [] (Nat.le_refl n)
  simpa [minimalBE, beNat] using this

theorem length_minimalBEAux (fuel n k : Nat) (acc : List Byte) (h : n ≤ fuel) (hk : n < 256 ^ k) :
    (minimalBEAux fuel n acc).length ≤ acc.length + k := by
  induction fuel generalizing n acc k with
  | zero => simp [minimalBEAux]
  | succ fuel ih =>
    unfold minimalBEAux
    by_cases hn : n = 0
    · simp [hn]
    · simp only [hn, if_false]
      cases k with
      | zero => simp at hk; omega
      | succ k =>
        have h1 : n / 256 < 256 ^ k := by
          rw [Nat.div_lt_iff_lt_mul (by decide)]
          rw [pow_succ] at hk
          exact hk
        have := ih (n / 256) k (⟨n % 256, Nat.mod_lt _ (by decide)⟩ :: acc) (by omega) h1
        simp only [List.length_cons] at this
        omega

/-- A 64-bit number has at most eight bytes. -/
theorem length_minimalBE_u64 (n : Nat) (h : n < 2 ^ 64) : (minimalBE n).length ≤ 8 := by
  have h8 : n < 256 ^ 8 := Nat.lt_of_lt_of_le h (by decide)
  have := length_minimalBEAux n n 8 [] (Nat.le_refl n) h8
  simpa [minimalBE] using this

theorem bytesToUint64_minimalBE (n : Nat) (h : n < 2 ^ 64) : bytesToUint64 (minimalBE n) = n := by
  unfold bytesToUint64
  rw [beNat_minimalBE]
  exact Nat.mod_eq_of_lt h

theorem copy_nil (dst : List Byte) : copy dst [] = dst := by simp [copy]

theorem copy_full (dst src : List Byte) (h : src.length = dst.length) : copy dst src = src := by
  unfold copy
  rw [List.take_of_length_le (by omega), List.drop_of_length_le (by omega)]
  simp


theorem index_fail (v sp : List Byte) (pos : Nat) (s : Effects) (h : v[pos]? = none) :
    index (.arr v sp) pos s = (s, none) := by
  simp [index, GoBytes.bytes, h]

theorem slice_fail (v sp : List Byte) (lo n : Nat) (s : Effects) (h : ¬ lo + n ≤ (v ++ sp).length) :
    slice (.arr v sp) lo (lo + n) s = (s, none) := by
  have hc : ¬ lo + n ≤ (GoBytes.arr v sp).cap := h
  simp only [slice, hc, and_false, if_false]

theorem stage_fail {α : Type} (v sp : List Byte) (pos n : Nat) (upd : List Byte → α) (a : α)
    (s : Effects) (hlen : ¬ pos + n ≤ (v ++ sp).length) (hn : n > 0) :
    (if n > 0 then (slice (.arr v sp) pos (pos + n)).andThen (fun seg => pure (upd seg, pos + n))
      else pure (a, pos)) s = (s, none) := by
  simp only [hn, if_true, Go.andThen, slice_fail v sp pos n s hlen]

theorem stage_fail_last {α : Type} (v sp : List Byte) (pos n : Nat) (upd : List Byte → α) (a : α)
    (s : Effects) (hlen : ¬ pos + n ≤ (v ++ sp).length) (hn : n > 0) :
    (if n > 0 then (slice (.arr v sp) pos (pos + n)).andThen (fun seg => pure (upd seg))
      else pure a) s = (s, none) := by
  simp only [hn, if_true, Go.andThen, slice_fail v sp pos n s hlen]

theorem lt_of_getElem?_some (v : List Byte) (p : Nat) (b : Byte) (h : v[p]? = some b) :
    p < v.length := by
  rcases Nat.lt_or_ge p v.length with h' | h'
  · exact h'
  · rw [List.getElem?_eq_none h'] at h; cases h

/-- On non-empty bytes the decoder either finds the four length bytes and
segments, or stops in a runtime panic. -/
theorem decode_total (ech : Hash) (hw : HistoryWrapper22) (address : Address)
    (v sp : List Byte) (hne : v ≠ [])
    (hst : hw.r.ReadAccountDataBeforeTxNum address hw.txNum = .ok (.arr v sp)) :
    (∃ n0 n1 n2 n3, Complete v sp n0 n1 n2 n3) ∨ (ReadAccountData ech hw address).run.2 = none := by
  have hlen0 : ¬ (GoBytes.arr v sp).len = 0 := by
    simp only [GoBytes.len, GoBytes.bytes]
    intro h; exact hne (List.length_eq_zero.mp h)
  have hcap : (v ++ sp).length = v.length + sp.length := List.length_append _ _
  unfold ReadAccountData
  simp only [Go.run, bind, ask, hst, hlen0, if_false, Nat.zero_add]
  simp only [Go.andThen, ask, Go.pure_apply]
  cases hi0 : v[0]? with
  | none => right; rw [index_fail v sp 0 _ hi0]
  | some n0 =>
  rw [index_run v sp 0 n0 _ hi0]
  dsimp only
  have p0 := lt_of_getElem?_some v 0 n0 hi0
  by_cases hl0 : 1 + n0.val ≤ (v ++ sp).length
  swap
  · right; rw [stage_fail v sp 1 n0.val _ _ _ hl0 (by omega)]
  rw [stage_run v sp 1 n0.val _ _ _ hl0]
  swap
  · intro _; rfl
  dsimp only
  cases hi1 : v[1 + n0.val]? with
  | none => right; rw [index_fail v sp _ _ hi1]
  | some n1 =>
  rw [index_run v sp _ n1 _ hi1]
  dsimp only
  have p1 := lt_of_getElem?_some v _ n1 hi1
  by_cases hl1 : 1 + n0.val + 1 + n1.val ≤ (v ++ sp).length
  swap
  · right; rw [stage_fail v sp _ n1.val _ _ _ hl1 (by omega)]
  rw [stage_run v sp _ n1.val _ _ _ hl1]
  swap
  · intro _; rfl
  dsimp only
  cases hi2 : v[1 + n0.val + 1 + n1.val]? with
  | none => right; rw [index_fail v sp _ _ hi2]
  | some n2 =>
  rw [index_run v sp _ n2 _ hi2]
  dsimp only
  have p2 := lt_of_getElem?_some v _ n2 hi2
  by_cases hl2 : 1 + n0.val + 1 + n1.val + 1 + n2.val ≤ (v ++ sp).length
  swap
  · right; rw [stage_fail v sp _ n2.val _ _ _ hl2 (by omega)]
  rw [stage_run v sp _ n2.val _ _ _ hl2]
  swap
  · intro _; simp [copy]
  dsimp only
  cases hi3 : v[1 + n0.val + 1 + n1.val + 1 + n2.val]? with
  | none =>
    right
    by_cases hd : 1 + n0.val + 1 + n1.val + 1 + n2.val ≥ (GoBytes.arr v sp).len
    · simp only [hd, if_true, printf]
      rw [index_fail v sp _ _ hi3]
    · simp only [hd, if_false, Go.pure_apply]
      rw [index_fail v sp _ _ hi3]
  | some n3 =>
  have p3 := lt_of_getElem?_some v _ n3 hi3
  have hd : ¬ (1 + n0.val + 1 + n1.val + 1 + n2.val ≥ (GoBytes.arr v sp).len) := by
    simp only [GoBytes.len, GoBytes.bytes]; omega
  simp only [hd, if_false, Go.pure_apply]
  rw [index_run v sp _ n3 _ hi3]
  dsimp only
  by_cases hl3 : 1 + n0.val + 1 + n1.val + 1 + n2.val + 1 + n3.val ≤ (v ++ sp).length
  swap
  · right; rw [stage_fail_last v sp _ n3.val _ _ _ hl3 (by omega)]
  left
  exact ⟨n0, n1, n2, n3, hi0, hl0, hi1, hl1, hi2, hl2, hi3, hl3⟩

/-! ## Claims about the decoder -/

/-- C2. Decode undoes the documented encoding: when the store returns the
encoding of section 4.1 of a record (64-bit nonce and incarnation, balance of
at most 255 bytes, code hash of 32 bytes or absent), whatever lies past its
length in the backing array, `ReadAccountData` returns no error and the
record with the same nonce, balance and incarnation, and with the original
code hash when present and the reset default otherwise. -/
theorem ReadAccountData_decodes_encoding (emptyCodeHash : Hash) (hw : HistoryWrapper22)
    (address : Address) (nonce balance incarnation : Nat) (codeHash : Option Hash)
    (sp : List Byte)
    (hdef : emptyCodeHash.length = 32)
    (hn : nonce < 2 ^ 64) (hb : (minimalBE balance).length ≤ 255)
    (hc : ∀ c, codeHash = some c → c.length = 32) (hi : incarnation < 2 ^ 64)
    (hst : hw.r.ReadAccountDataBeforeTxNum address hw.txNum
      = .ok (.arr (encodeAccount nonce balance codeHash incarnation) sp)) :
    encodeAccount nonce balance codeHash incarnation ≠ [] ∧
    (ReadAccountData emptyCodeHash hw address).run.2 =
      some (.ok (some { Nonce := nonce, Balance := balance,
                        CodeHash := codeHash.getD emptyCodeHash,
                        Incarnation := incarnation })) := by
  refine ⟨by simp [encodeAccount, segment], ?_⟩
  have h0 := length_minimalBE_u64 nonce hn
  have h3 := length_minimalBE_u64 incarnation hi
  have h2 : (codeHash.getD []).length < 256 := by
    cases codeHash with
    | none => simp
    | some c => simp [hc c rfl]
  have hst' : hw.r.ReadAccountDataBeforeTxNum address hw.txNum
      = .ok (.arr (segment (minimalBE nonce) ++ segment (minimalBE balance)
          ++ segment (codeHash.getD []) ++ segment (minimalBE incarnation) ++ []) sp) := by
    rw [hst]; simp [encodeAccount]
  rw [decode_segments emptyCodeHash hw address _ _ _ _ [] sp (by omega) (by omega) h2 (by omega)
    hst']
  simp only [bytesToUint64_minimalBE nonce hn, bytesToUint64_minimalBE incarnation hi, SetBytes,
    beNat_minimalBE]
  cases codeHash with
  | none => simp [copy_nil]
  | some c => simp [copy_full emptyCodeHash c (by rw [hc c rfl, hdef])]

/-- C2, at a concrete record: nonce 1, balance 1000, no code, incarnation 3,
encoded as `[1, 1, 2, 3, 232, 0, 1, 3]`. -/
theorem ReadAccountData_decodes_encoding_witness :
    (zeroHash.length = 32 ∧ 1 < 2 ^ 64 ∧ (minimalBE 1000).length ≤ 255 ∧ 3 < 2 ^ 64 ∧
      (constStore (.arr (encodeAccount 1 1000 none 3) [])).ReadAccountDataBeforeTxNum [] 0
        = .ok (.arr (encodeAccount 1 1000 none 3) [])) ∧
    (encodeAccount 1 1000 none 3 ≠ [] ∧
      (ReadAccountData zeroHash { r := constStore (.arr (encodeAccount 1 1000 none 3) []) } []).run.2
        = some (.ok (some { Nonce := 1, Balance := 1000, CodeHash := zeroHash,
                            Incarnation := 3 }))) :=
  ⟨⟨rfl, by decide, by decide, by decide, rfl⟩,
   ReadAccountData_decodes_encoding zeroHash
    { r := constStore (.arr (encodeAccount 1 1000 none 3) []) } [] 1 1000 3 none [] rfl
    (by decide) (by decide) (fun c h => by cases h) (by decide) rfl⟩

/-- C3, refuted at a concrete input. The store returns
`[0, 0, 5, 1, 2, 3, 4, 5, 0]`: empty nonce and balance, a code-hash segment of
length 5 (neither 0 nor 32), empty incarnation. `ReadAccountData` reports no
error and returns a record, whose code hash is the five bytes followed by the
last 27 bytes of the default. -/
theorem ReadAccountData_accepts_short_code_hash :
    (ReadAccountData zeroHash { r := constStore (.arr [0, 0, 5, 1, 2, 3, 4, 5, 0] []) } []).run.2
      = some (.ok (some { Nonce := 0, Balance := 0,
                          CodeHash := [1, 2, 3, 4, 5] ++ List.replicate 27 0,
                          Incarnation := 0 })) := by
  rfl

/-- C3, as the code has it. `ReadAccountData` has no corruption error and does
not validate the format. Whatever bytes the store returns:
* it never returns an error of its own (the only error is the one the store
  call itself returns);
* on four complete segments whose code-hash segment has any length (0, 32 or
  not), it returns without error the record whose code hash is the default
  overwritten from the front by the segment (`copy`);
* when the backing array ends with the bytes (`cap = len`) and the non-empty
  bytes are not four complete length-prefixed segments (a declared length
  exceeds the remaining bytes, or a length byte is missing), it returns no
  record and no error: the decode stops in a runtime panic. -/
theorem ReadAccountData_no_validation (emptyCodeHash : Hash) (hw : HistoryWrapper22)
    (address : Address) (enc : GoBytes)
    (hst : hw.r.ReadAccountDataBeforeTxNum address hw.txNum = .ok enc) :
    (∀ e, (ReadAccountData emptyCodeHash hw address).run.2 ≠ some (.error e)) ∧
    (∀ s0 s1 s2 s3 rest sp : List Byte,
      s0.length < 256 → s1.length < 256 → s2.length < 256 → s3.length < 256 →
      enc = .arr (segment s0 ++ segment s1 ++ segment s2 ++ segment s3 ++ rest) sp →
      (ReadAccountData emptyCodeHash hw address).run.2 =
        some (.ok (some { Nonce := bytesToUint64 s0, Balance := SetBytes s1,
                          CodeHash := copy emptyCodeHash s2,
                          Incarnation := bytesToUint64 s3 }))) ∧
    (∀ v : List Byte, v ≠ [] → enc = .arr v [] →
      (¬ ∃ n0 n1 n2 n3, Complete v [] n0 n1 n2 n3) →
      (ReadAccountData emptyCodeHash hw address).run.2 = none) := by
  refine ⟨?_, ?_, ?_⟩
  · intro e
    cases enc with
    | nil =>
      unfold ReadAccountData
      simp only [Go.run, bind, ask, hst, Go.andThen]
      cases hw.trace <;> simp [GoBytes.len, GoBytes.bytes, printf, Go.pure_apply, Go.andThen]
    | arr v sp =>
      by_cases hv : v = []
      · subst hv
        unfold ReadAccountData
        simp only [Go.run, bind, ask, hst, Go.andThen]
        cases hw.trace <;> simp [GoBytes.len, GoBytes.bytes, printf, Go.pure_apply, Go.andThen]
      · rcases decode_total emptyCodeHash hw address v sp hv hst with
          ⟨n0, n1, n2, n3, h0, l0, h1, l1, h2, l2, h3, l3⟩ | hnone
        · rw [decode_run_cap emptyCodeHash hw address v sp n0 n1 n2 n3 hst h0 l0 h1 l1 h2 l2 h3 l3]
          simp
        · rw [hnone]; simp
  · intro s0 s1 s2 s3 rest sp h0 h1 h2 h3 henc
    rw [henc] at hst
    rw [decode_segments emptyCodeHash hw address s0 s1 s2 s3 rest sp h0 h1 h2 h3 hst]
  · intro v hv henc hnot
    rw [henc] at hst
    rcases decode_total emptyCodeHash hw address v [] hv hst with h | h
    · exact absurd h hnot
    · exact h

/-- C3 as the code has it, at a concrete input: `[3, 1, 2]` (a nonce of
declared length 3 with two bytes left) gives a panic, not an error. -/
theorem ReadAccountData_no_validation_witness :
    (constStore (.arr [3, 1, 2] [])).ReadAccountDataBeforeTxNum [] 0 = .ok (.arr [3, 1, 2] []) ∧
    (ReadAccountData zeroHash { r := constStore (.arr [3, 1, 2] []) } []).run.2 = none :=
  ⟨rfl, (ReadAccountData_no_validation zeroHash { r := constStore (.arr [3, 1, 2] []) } []
    (.arr [3, 1, 2] []) rfl).2.2 [3, 1, 2] (by decide) rfl (by
      rintro ⟨n0, n1, n2, n3, h0, l0, -⟩
      simp only [List.getElem?_cons_zero, Option.some.injEq] at h0
      subst h0
      exact absurd l0 (by decide))⟩

/-- C4. A non-existent account and an existing all-default one are told
apart: on empty bytes (nil, or length 0) the result is "absent", with no error;
on the four bytes `[0, 0, 0, 0]` it is, with no error, a present record with
nonce 0, balance 0, the default code hash and incarnation 0; the two results
differ. -/
theorem ReadAccountData_absent_vs_default (emptyCodeHash : Hash) (hwA hwP : HistoryWrapper22)
    (address : Address) (encA : GoBytes) (sp : List Byte)
    (hlen : encA.len = 0)
    (hA : hwA.r.ReadAccountDataBeforeTxNum address hwA.txNum = .ok encA)
    (hP : hwP.r.ReadAccountDataBeforeTxNum address hwP.txNum = .ok (.arr [0, 0, 0, 0] sp)) :
    (ReadAccountData emptyCodeHash hwA address).run.2 = some (.ok none) ∧
    (ReadAccountData emptyCodeHash hwP address).run.2 =
      some (.ok (some { Nonce := 0, Balance := 0, CodeHash := emptyCodeHash,
                        Incarnation := 0 })) ∧
    (ReadAccountData emptyCodeHash hwA address).run.2 ≠
      (ReadAccountData emptyCodeHash hwP address).run.2 := by
  have hAres : (ReadAccountData emptyCodeHash hwA address).run.2 = some (.ok none) := by
    unfold ReadAccountData
    simp only [Go.run, bind, ask, hA, Go.andThen, hlen, if_true]
    cases hwA.trace <;> simp [printf, Go.pure_apply]
  have hP' : hwP.r.ReadAccountDataBeforeTxNum address hwP.txNum
      = .ok (.arr (segment [] ++ segment [] ++ segment [] ++ segment [] ++ []) sp) := hP
  have hPres := decode_segments emptyCodeHash hwP address [] [] [] [] [] sp
    (by decide) (by decide) (by decide) (by decide) hP'
  have hPres2 : (ReadAccountData emptyCodeHash hwP address).run.2 =
      some (.ok (some { Nonce := 0, Balance := 0, CodeHash := emptyCodeHash,
                        Incarnation := 0 })) := by
    rw [hPres]; simp [copy_nil, bytesToUint64, SetBytes, beNat]
  refine ⟨hAres, hPres2, ?_⟩
  rw [hAres, hPres2]
  simp

/-- C4, at a concrete store: nil bytes against `[0, 0, 0, 0]`. -/
theorem ReadAccountData_absent_vs_default_witness :
    (GoBytes.nil.len = 0 ∧
      (constStore .nil).ReadAccountDataBeforeTxNum [7] 0 = .ok .nil ∧
      (constStore (.arr [0, 0, 0, 0] [])).ReadAccountDataBeforeTxNum [7] 0
        = .ok (.arr [0, 0, 0, 0] [])) ∧
    ((ReadAccountData zeroHash { r := constStore .nil } [7]).run.2 = some (.ok none) ∧
     (ReadAccountData zeroHash { r := constStore (.arr [0, 0, 0, 0] []) } [7]).run.2 =
       some (.ok (some { Nonce := 0, Balance := 0, CodeHash := zeroHash, Incarnation := 0 })) ∧
     (ReadAccountData zeroHash { r := constStore .nil } [7]).run.2 ≠
       (ReadAccountData zeroHash { r := constStore (.arr [0, 0, 0, 0] []) } [7]).run.2) :=
  ⟨⟨rfl, rfl, rfl⟩,
   ReadAccountData_absent_vs_default zeroHash { r := constStore .nil }
    { r := constStore (.arr [0, 0, 0, 0] []) } [7] .nil [] rfl rfl rfl⟩

theorem mem_segReads (pos n lo hi : Nat) (h : (lo, hi) ∈ segReads pos n) :
    pos ≤ lo ∧ lo < hi ∧ hi ≤ pos + 1 + n := by
  unfold segReads at h
  by_cases hn : n > 0
  · simp only [hn, if_true, List.mem_cons, Prod.mk.injEq, List.mem_singleton, List.mem_nil_iff,
      or_false] at h
    rcases h with ⟨h1, h2⟩ | ⟨h1, h2⟩ <;> omega
  · simp only [hn, if_false, List.mem_cons, Prod.mk.injEq, List.mem_nil_iff, or_false] at h
    omega

/-- C10. Bounds safety on well-formed input: when the bytes are four complete
length-prefixed segments, followed by anything, then whatever the capacity of
the slice, `ReadAccountData` returns a record (no panic, no error), every
index and slice access `[lo, hi)` it makes lies inside the `len` bytes of the
input, and the `pos >= len(enc)` diagnostic line is not printed. -/
theorem ReadAccountData_in_bounds (emptyCodeHash : Hash) (hw : HistoryWrapper22)
    (address : Address) (s0 s1 s2 s3 rest sp : List Byte)
    (h0 : s0.length < 256) (h1 : s1.length < 256) (h2 : s2.length < 256) (h3 : s3.length < 256)
    (hst : hw.r.ReadAccountDataBeforeTxNum address hw.txNum
      = .ok (.arr (segment s0 ++ segment s1 ++ segment s2 ++ segment s3 ++ rest) sp)) :
    (ReadAccountData emptyCodeHash hw address).run.2 =
      some (.ok (some { Nonce := bytesToUint64 s0, Balance := SetBytes s1,
                        CodeHash := copy emptyCodeHash s2,
                        Incarnation := bytesToUint64 s3 })) ∧
    (∀ lo hi, (lo, hi) ∈ (ReadAccountData emptyCodeHash hw address).run.1.reads →
      lo < hi ∧ hi ≤ (segment s0 ++ segment s1 ++ segment s2 ++ segment s3 ++ rest).length) ∧
    (∀ a e, Printed.accountPanic a e ∉ (ReadAccountData emptyCodeHash hw address).run.1.out) := by
  rw [decode_segments emptyCodeHash hw address s0 s1 s2 s3 rest sp h0 h1 h2 h3 hst]
  refine ⟨rfl, ?_, ?_⟩
  · intro lo hi hmem
    have hlen : (segment s0 ++ segment s1 ++ segment s2 ++ segment s3 ++ rest).length
        = 1 + s0.length + 1 + s1.length + 1 + s2.length + 1 + s3.length + rest.length := by
      simp [segment]; omega
    rw [hlen]
    simp only [List.mem_append] at hmem
    rcases hmem with ((hm | hm) | hm) | hm <;> have := mem_segReads _ _ _ _ hm <;> omega
  · intro a e
    cases hw.trace <;> simp

/-- C10, at a concrete input: nonce `[7]`, balance `[1, 0]`, no code,
incarnation `[2]`, then a trailing byte. -/
theorem ReadAccountData_in_bounds_witness :
    (constStore (.arr [1, 7, 2, 1, 0, 0, 1, 2, 9] [])).ReadAccountDataBeforeTxNum [] 0
      = .ok (.arr (segment [7] ++ segment [1, 0] ++ segment [] ++ segment [2] ++ [9]) []) ∧
    (ReadAccountData zeroHash { r := constStore (.arr [1, 7, 2, 1, 0, 0, 1, 2, 9] []) } []).run.2
      = some (.ok (some { Nonce := 7, Balance := 256, CodeHash := zeroHash,
                          Incarnation := 2 })) :=
  ⟨rfl, (ReadAccountData_in_bounds zeroHash
    { r := constStore (.arr [1, 7, 2, 1, 0, 0, 1, 2, 9] []) } [] [7] [1, 0] [] [2] [9] []
    (by decide) (by decide) (by decide) (by decide) rfl).1⟩

/-! ## Trace mode -/

theorem sim_bind {α β : Type} {m m' : Go α} {f f' : α → Go β} (h : Sim m m')
    (hf : ∀ a, Sim (f a) (f' a)) : Sim (m >>= f) (m' >>= f') := by
  intro s s' hq hr
  have := h s s' hq hr
  simp only [Bind.bind, Go.andThen]
  rcases hm : m s with ⟨t, a⟩
  rcases hm' : m' s' with ⟨t', a'⟩
  rw [hm, hm'] at this
  obtain ⟨h1, h2, h3⟩ := this
  simp only at h1 h2 h3
  subst h3
  cases a with
  | none => exact ⟨h1, h2, rfl⟩
  | some a => exact hf a t t' h1 h2

theorem sim_pure {α : Type} (a : α) : Sim (pure a : Go α) (pure a) :=
  fun _ _ hq hr => ⟨hq, hr, rfl⟩

theorem sim_index (enc : GoBytes) (pos : Nat) : Sim (index enc pos) (index enc pos) := by
  intro s s' hq hr
  simp only [index]
  cases enc.bytes[pos]? <;> simp [agree, hq, hr]

theorem sim_slice (enc : GoBytes) (lo hi : Nat) : Sim (slice enc lo hi) (slice enc lo hi) := by
  intro s s' hq hr
  simp only [slice]
  split <;> simp [agree, hq, hr]

theorem sim_ask (q : Query) : Sim (ask q) (ask q) := by
  intro s s' hq hr
  simp [ask, agree, hq, hr]

theorem sim_printf_left (p : Printed) : Sim (printf p) (pure ()) :=
  fun _ _ hq hr => ⟨hq, hr, rfl⟩

theorem sim_printf (p : Printed) : Sim (printf p) (printf p) :=
  fun _ _ hq hr => ⟨hq, hr, rfl⟩

theorem sim_ite {α : Type} (c : Prop) [Decidable c] {a a' b b' : Go α} (h1 : Sim a a')
    (h2 : Sim b b') : Sim (if c then a else b) (if c then a' else b') := by
  split
  · exact h1
  · exact h2

theorem sim_run {α : Type} {m m' : Go α} (h : Sim m m') :
    m.run.2 = m'.run.2 ∧ m.run.1.queries = m'.run.1.queries :=
  ⟨(h {} {} rfl rfl).2.2, (h {} {} rfl rfl).1⟩

theorem sim_ReadAccountData (ech : Hash) (r : Aggregator) (txNum : Nat) (address : Address) :
    Sim (ReadAccountData ech { r := r, txNum := txNum, trace := true } address)
      (ReadAccountData ech { r := r, txNum := txNum, trace := false } address) := by
  unfold ReadAccountData
  dsimp only
  apply sim_bind (sim_ask _)
  intro _
  cases r.ReadAccountDataBeforeTxNum address txNum with
  | error e => exact sim_pure _
  | ok enc =>
    dsimp only
    apply sim_ite
    · exact sim_bind (sim_printf_left _) (fun _ => sim_pure _)
    · simp only [if_true, Bool.false_eq_true, if_false]
      repeat' first
        | exact sim_pure _
        | exact sim_index _ _
        | exact sim_slice _ _ _
        | exact sim_printf _
        | exact sim_printf_left _
        | apply sim_bind
        | apply sim_ite
        | intro _

theorem sim_ReadAccountStorage (r : Aggregator) (txNum : Nat) (address : Address)
    (incarnation : Nat) (key : Hash) :
    Sim (ReadAccountStorage { r := r, txNum := txNum, trace := true } address incarnation key)
      (ReadAccountStorage { r := r, txNum := txNum, trace := false } address incarnation key) := by
  unfold ReadAccountStorage
  dsimp only
  apply sim_bind (sim_ask _)
  intro _
  cases r.ReadAccountStorageBeforeTxNum address key txNum with
  | error e => exact sim_bind (sim_printf _) (fun _ => sim_pure _)
  | ok enc =>
    dsimp only
    simp only [if_true, Bool.false_eq_true, if_false]
    apply sim_bind
    · cases enc.isNil <;> exact sim_printf_left _
    · intro _
      cases enc.isNil <;> exact sim_pure _

theorem sim_ReadAccountCode (r : Aggregator) (txNum : Nat) (address : Address)
    (incarnation : Nat) (codeHash : Hash) :
    Sim (ReadAccountCode { r := r, txNum := txNum, trace := true } address incarnation codeHash)
      (ReadAccountCode { r := r, txNum := txNum, trace := false } address incarnation codeHash) := by
  unfold ReadAccountCode
  dsimp only
  apply sim_bind (sim_ask _)
  intro _
  cases r.ReadAccountCodeBeforeTxNum address txNum with
  | error e => exact sim_pure _
  | ok enc => exact sim_bind (sim_printf_left _) (fun _ => sim_pure _)

theorem sim_ReadAccountCodeSize (r : Aggregator) (txNum : Nat) (address : Address)
    (incarnation : Nat) (codeHash : Hash) :
    Sim (ReadAccountCodeSize { r := r, txNum := txNum, trace := true } address incarnation codeHash)
      (ReadAccountCodeSize { r := r, txNum := txNum, trace := false } address incarnation
        codeHash) := by
  unfold ReadAccountCodeSize
  dsimp only
  apply sim_bind (sim_ask _)
  intro _
  cases r.ReadAccountCodeSizeBeforeTxNum address txNum with
  | error e => exact sim_pure _
  | ok size => exact sim_bind (sim_printf_left _) (fun _ => sim_pure _)

/-! ## The transaction loop of `runHistory22` -/

theorem loop_nil (W : World) (flags : Flags) (bn : Nat) (cc : ChainConfig) (block : Block)
    (hd : Header) (vc : VmConfig) (i : Nat) (x : RunVars) :
    runHistory22.loop W flags bn cc block hd vc [] i x =
      { txNum := x.txNum, receipts := x.receipts, err := none, hw := x.hw, steps := x.steps,
        out := x.out } := rfl

theorem loop_cons_err (W : World) (flags : Flags) (bn : Nat) (cc : ChainConfig) (block : Block)
    (hd : Header) (vc : VmConfig) (tx : Transaction) (rest : List Transaction) (i : Nat)
    (x : RunVars) (e : Error)
    (h : W.ApplyTransaction cc x.gp (stepCtx block tx i x) hd tx x.usedGas vc = .error e) :
    runHistory22.loop W flags bn cc block hd vc (tx :: rest) i x =
      { txNum := 0, receipts := [], err := some (.applyTx i tx.hash e),
        hw := stamp x.hw x.txNum,
        steps := x.steps ++ [{ idx := i, tx := tx, gp := x.gp, ibs := stepCtx block tx i x,
                               usedGas := x.usedGas, res := .error e,
                               after := stamp x.hw x.txNum }],
        out := x.out } := by
  have h' := h
  simp only [stepCtx, stamp] at h'
  simp only [runHistory22.loop, h']
  rfl

theorem loop_cons_ok (W : World) (flags : Flags) (bn : Nat) (cc : ChainConfig) (block : Block)
    (hd : Header) (vc : VmConfig) (tx : Transaction) (rest : List Transaction) (i : Nat)
    (x : RunVars) (rc : Receipt × Nat × Nat)
    (h : W.ApplyTransaction cc x.gp (stepCtx block tx i x) hd tx x.usedGas vc = .ok rc) :
    runHistory22.loop W flags bn cc block hd vc (tx :: rest) i x =
      runHistory22.loop W flags bn cc block hd vc rest (i + 1) (varsAfter flags bn block tx i x rc) := by
  have h' := h
  simp only [stepCtx, stamp] at h'
  obtain ⟨r1, r2, r3⟩ := rc
  simp only [runHistory22.loop, h']
  rfl

theorem mod_step (a k : Nat) : ((a + 1) % 2 ^ 64 + k) % 2 ^ 64 = (a + (k + 1)) % 2 ^ 64 := by
  omega

theorem mod_step' (a k : Nat) : ((a + 1) % 2 ^ 64 + k + 1) % 2 ^ 64 = (a + (k + 1) + 1) % 2 ^ 64 := by
  omega

/-- What the transaction loop does, from any state of its variables: the steps
it adds, the ordinals each step sees and leaves, and its result. -/
theorem loop_inv (W : World) (flags : Flags) (bn : Nat) (cc : ChainConfig) (block : Block)
    (hd : Header) (vc : VmConfig) (txs : List Transaction) :
    ∀ (i : Nat) (x : RunVars), x.txNum < 2 ^ 64 →
    ∃ new : List TxStep,
      (runHistory22.loop W flags bn cc block hd vc txs i x).steps = x.steps ++ new ∧
      new.length ≤ txs.length ∧
      (∀ k st, new[k]? = some st →
        st.idx = i + k ∧ txs[k]? = some st.tx ∧
        st.ibs.stateReader.txNum = (x.txNum + k) % 2 ^ 64 ∧
        st.ibs.stateReader.r.txNum = (x.txNum + k) % 2 ^ 64 ∧
        st.ibs.txIndex = i + k ∧
        (∀ rc, st.res = .ok rc →
          st.after.txNum = (x.txNum + k + 1) % 2 ^ 64 ∧
          st.after.r.txNum = (x.txNum + k + 1) % 2 ^ 64) ∧
        (∀ e, st.res = .error e →
          new.length = k + 1 ∧
          (runHistory22.loop W flags bn cc block hd vc txs i x).err
            = some (.applyTx (i + k) st.tx.hash e) ∧
          (runHistory22.loop W flags bn cc block hd vc txs i x).txNum = 0 ∧
          (runHistory22.loop W flags bn cc block hd vc txs i x).receipts = [])) ∧
      ((runHistory22.loop W flags bn cc block hd vc txs i x).err = none →
        new.length = txs.length ∧
        (runHistory22.loop W flags bn cc block hd vc txs i x).txNum
          = (x.txNum + txs.length) % 2 ^ 64 ∧
        (runHistory22.loop W flags bn cc block hd vc txs i x).receipts
          = x.receipts ++ new.filterMap TxStep.receipt ∧
        (∀ st ∈ new, ∃ rc, st.res = .ok rc)) := by
  induction txs with
  | nil =>
    intro i x hx
    refine ⟨[], by simp [loop_nil], Nat.le_refl _, ?_, ?_⟩
    · intro k st h; simp at h
    · intro _
      have := Nat.mod_eq_of_lt hx
      simp [loop_nil, TxStep.receipt]
      omega
  | cons tx rest ih =>
    intro i x hx
    cases h : W.ApplyTransaction cc x.gp (stepCtx block tx i x) hd tx x.usedGas vc with
    | error e =>
      rw [loop_cons_err W flags bn cc block hd vc tx rest i x e h]
      refine ⟨[{ idx := i, tx := tx, gp := x.gp, ibs := stepCtx block tx i x,
                 usedGas := x.usedGas, res := .error e,
                 after := stamp x.hw x.txNum }], rfl, by simp, ?_, ?_⟩
      · intro k st hk
        cases k with
        | zero =>
          simp only [List.getElem?_cons_zero, Option.some.injEq] at hk
          subst hk
          refine ⟨rfl, by simp, ?_, ?_, ?_, ?_, ?_⟩
          · simp only [stepCtx, IntraBlockState.Prepare, Nat.add_zero, Nat.mod_eq_of_lt hx]
            cases x.daoBlock <;> rfl
          · simp only [stepCtx, IntraBlockState.Prepare, Nat.add_zero, Nat.mod_eq_of_lt hx]
            cases x.daoBlock <;> rfl
          · rfl
          · intro rc hrc; cases hrc
          · intro e' he'
            simp only [Except.error.injEq] at he'
            subst he'
            exact ⟨rfl, rfl, rfl, rfl⟩
        | succ k => simp at hk
      · intro herr; cases herr
    | ok rc =>
      rw [loop_cons_ok W flags bn cc block hd vc tx rest i x rc h]
      have hx' : (varsAfter flags bn block tx i x rc).txNum < 2 ^ 64 :=
        Nat.mod_lt _ (by decide)
      obtain ⟨new, hsteps, hlen, hk, hok⟩ := ih (i + 1) (varsAfter flags bn block tx i x rc) hx'
      refine ⟨{ idx := i, tx := tx, gp := x.gp, ibs := stepCtx block tx i x,
                usedGas := x.usedGas, res := .ok rc,
                after := stamp x.hw ((x.txNum + 1) % 2 ^ 64) } :: new, ?_, ?_, ?_, ?_⟩
      · rw [hsteps]; simp [varsAfter]
      · simp only [List.length_cons]; omega
      · intro k st hst
        cases k with
        | zero =>
          simp only [List.getElem?_cons_zero, Option.some.injEq] at hst
          subst hst
          refine ⟨rfl, by simp, ?_, ?_, ?_, ?_, ?_⟩
          · simp only [stepCtx, IntraBlockState.Prepare, Nat.add_zero, Nat.mod_eq_of_lt hx]
            cases x.daoBlock <;> rfl
          · simp only [stepCtx, IntraBlockState.Prepare, Nat.add_zero, Nat.mod_eq_of_lt hx]
            cases x.daoBlock <;> rfl
          · rfl
          · intro _ _; exact ⟨rfl, rfl⟩
          · intro e he; cases he
        | succ k =>
          simp only [List.getElem?_cons_succ] at hst
          obtain ⟨h1, h2, h3, h4, h5, h6, h7⟩ := hk k st hst
          have hv : (varsAfter flags bn block tx i x rc).txNum = (x.txNum + 1) % 2 ^ 64 := rfl
          rw [hv] at h3 h4 h6
          refine ⟨by omega, by simpa using h2, ?_, ?_, by omega, ?_, ?_⟩
          · rw [h3, mod_step]
          · rw [h4, mod_step]
          · intro rc' hrc'
            have := h6 rc' hrc'
            rw [mod_step'] at this
            exact this
          · intro e he
            obtain ⟨g1, g2, g3, g4⟩ := h7 e he
            refine ⟨by simp only [List.length_cons]; omega, ?_, g3, g4⟩
            rw [g2]
            have : i + 1 + k = i + (k + 1) := by omega
            rw [this]
      · intro herr
        obtain ⟨g1, g2, g3, g4⟩ := hok herr
        have hv : (varsAfter flags bn block tx i x rc).txNum = (x.txNum + 1) % 2 ^ 64 := rfl
        refine ⟨by simp only [List.length_cons]; omega, ?_, ?_, ?_⟩
        · rw [g2, hv, mod_step]; rfl
        · rw [g3]; simp [varsAfter, TxStep.receipt]
        · intro st hst
          simp only [List.mem_cons] at hst
          rcases hst with rfl | hst
          · exact ⟨rc, rfl⟩
          · exact g4 st hst

/-! ## The store query made by each read -/

theorem quiet_bind {α β : Type} {m : Go α} {f : α → Go β} (h : Quiet m) (hf : ∀ a, Quiet (f a)) :
    Quiet (m >>= f) := by
  intro s
  have := h s
  simp only [Bind.bind, Go.andThen]
  rcases hm : m s with ⟨t, a⟩
  rw [hm] at this
  cases a with
  | none => exact this
  | some a => rw [hf a t]; exact this

theorem quiet_pure {α : Type} (a : α) : Quiet (pure a : Go α) := fun _ => rfl

theorem quiet_index (enc : GoBytes) (pos : Nat) : Quiet (index enc pos) := by
  intro s
  simp only [index]
  cases enc.bytes[pos]? <;> rfl

theorem quiet_slice (enc : GoBytes) (lo hi : Nat) : Quiet (slice enc lo hi) := by
  intro s
  simp only [slice]
  split <;> rfl

theorem quiet_printf (p : Printed) : Quiet (printf p) := fun _ => rfl

theorem quiet_ite {α : Type} (c : Prop) [Decidable c] {a b : Go α} (h1 : Quiet a) (h2 : Quiet b) :
    Quiet (if c then a else b) := by
  split
  · exact h1
  · exact h2

theorem ask_then {α : Type} (q : Query) (f : Unit → Go α) (h : ∀ a, Quiet (f a)) :
    ((ask q >>= f).run).1.queries = [q] := by
  simp only [Bind.bind, Go.andThen, Go.run, ask]
  rcases hm : f () { queries := [] ++ [q], out := [], reads := [] } with ⟨t, a⟩
  have := h () { queries := [] ++ [q], out := [], reads := [] }
  rw [hm] at this
  cases a <;> simpa using this

/-- The store query made by `ReadAccountData`: the address, at the wrapper's ordinal. -/
theorem ReadAccountData_queries (ech : Hash) (hw : HistoryWrapper22) (address : Address) :
    (ReadAccountData ech hw address).run.1.queries = [.accountData address hw.txNum] := by
  unfold ReadAccountData
  apply ask_then
  intro _
  cases hw.r.ReadAccountDataBeforeTxNum address hw.txNum with
  | error e => exact quiet_pure _
  | ok enc =>
    dsimp only
    repeat' first
      | exact quiet_pure _
      | exact quiet_index _ _
      | exact quiet_slice _ _ _
      | exact quiet_printf _
      | apply quiet_bind
      | apply quiet_ite
      | intro _

theorem ReadAccountStorage_queries (hw : HistoryWrapper22) (address : Address) (inc : Nat)
    (key : Hash) :
    (ReadAccountStorage hw address inc key).run.1.queries = [.storage address key hw.txNum] := by
  unfold ReadAccountStorage
  apply ask_then
  intro _
  cases hw.r.ReadAccountStorageBeforeTxNum address key hw.txNum with
  | error e => exact quiet_bind (quiet_printf _) (fun _ => quiet_pure _)
  | ok enc =>
    dsimp only
    repeat' first
      | exact quiet_pure _
      | exact quiet_printf _
      | apply quiet_bind
      | apply quiet_ite
      | intro _

theorem ReadAccountCode_queries (hw : HistoryWrapper22) (address : Address) (inc : Nat)
    (codeHash : Hash) :
    (ReadAccountCode hw address inc codeHash).run.1.queries = [.code address hw.txNum] := by
  unfold ReadAccountCode
  apply ask_then
  intro _
  cases hw.r.ReadAccountCodeBeforeTxNum address hw.txNum with
  | error e => exact quiet_pure _
  | ok enc =>
    dsimp only
    repeat' first
      | exact quiet_pure _
      | exact quiet_printf _
      | apply quiet_bind
      | apply quiet_ite
      | intro _

theorem ReadAccountCodeSize_queries (hw : HistoryWrapper22) (address : Address) (inc : Nat)
    (codeHash : Hash) :
    (ReadAccountCodeSize hw address inc codeHash).run.1.queries = [.codeSize address hw.txNum] := by
  unfold ReadAccountCodeSize
  apply ask_then
  intro _
  cases hw.r.ReadAccountCodeSizeBeforeTxNum address hw.txNum with
  | error e => exact quiet_pure _
  | ok enc =>
    dsimp only
    repeat' first
      | exact quiet_pure _
      | exact quiet_printf _
      | apply quiet_bind
      | apply quiet_ite
      | intro _

/-- C7. Trace mode never changes results: for every store, ordinal and
arguments, each of `ReadAccountData`, `ReadAccountStorage`, `ReadAccountCode`
and `ReadAccountCodeSize` returns with `trace = true` the same value and the
same error (or the same panic) as with `trace = false`, and in both modes
makes the same single store query, with the same key and the wrapper's
ordinal. -/
theorem trace_never_changes_results (emptyCodeHash : Hash) (r : Aggregator) (txNum : Nat)
    (address : Address) (incarnation : Nat) (key codeHash : Hash) :
    ((ReadAccountData emptyCodeHash { r := r, txNum := txNum, trace := true } address).run.2
        = (ReadAccountData emptyCodeHash { r := r, txNum := txNum, trace := false } address).run.2
      ∧ (ReadAccountData emptyCodeHash { r := r, txNum := txNum, trace := true } address).run.1.queries
        = [.accountData address txNum]
      ∧ (ReadAccountData emptyCodeHash
          { r := r, txNum := txNum, trace := false } address).run.1.queries
        = [.accountData address txNum]) ∧
    ((ReadAccountStorage { r := r, txNum := txNum, trace := true } address incarnation key).run.2
        = (ReadAccountStorage { r := r, txNum := txNum, trace := false } address incarnation
            key).run.2
      ∧ (ReadAccountStorage
          { r := r, txNum := txNum, trace := true } address incarnation key).run.1.queries
        = [.storage address key txNum]
      ∧ (ReadAccountStorage
          { r := r, txNum := txNum, trace := false } address incarnation key).run.1.queries
        = [.storage address key txNum]) ∧
    ((ReadAccountCode { r := r, txNum := txNum, trace := true } address incarnation codeHash).run.2
        = (ReadAccountCode { r := r, txNum := txNum, trace := false } address incarnation
            codeHash).run.2
      ∧ (ReadAccountCode
          { r := r, txNum := txNum, trace := true } address incarnation codeHash).run.1.queries
        = [.code address txNum]
      ∧ (ReadAccountCode
          { r := r, txNum := txNum, trace := false } address incarnation codeHash).run.1.queries
        = [.code address txNum]) ∧
    ((ReadAccountCodeSize
          { r := r, txNum := txNum, trace := true } address incarnation codeHash).run.2
        = (ReadAccountCodeSize { r := r, txNum := txNum, trace := false } address incarnation
            codeHash).run.2
      ∧ (ReadAccountCodeSize
          { r := r, txNum := txNum, trace := true } address incarnation codeHash).run.1.queries
        = [.codeSize address txNum]
      ∧ (ReadAccountCodeSize
          { r := r, txNum := txNum, trace := false } address incarnation codeHash).run.1.queries
        = [.codeSize address txNum]) :=
  ⟨⟨(sim_run (sim_ReadAccountData emptyCodeHash r txNum address)).1,
    ReadAccountData_queries _ _ _, ReadAccountData_queries _ _ _⟩,
   ⟨(sim_run (sim_ReadAccountStorage r txNum address incarnation key)).1,
    ReadAccountStorage_queries _ _ _ _, ReadAccountStorage_queries _ _ _ _⟩,
   ⟨(sim_run (sim_ReadAccountCode r txNum address incarnation codeHash)).1,
    ReadAccountCode_queries _ _ _ _, ReadAccountCode_queries _ _ _ _⟩,
   ⟨(sim_run (sim_ReadAccountCodeSize r txNum address incarnation codeHash)).1,
    ReadAccountCodeSize_queries _ _ _ _, ReadAccountCodeSize_queries _ _ _ _⟩⟩

theorem runHistory22_eq (W : World) (flags : Flags) (trace : Bool) (bn s : Nat)
    (hw : HistoryWrapper22) (cc : ChainConfig) (block : Block) (vc : VmConfig) :
    runHistory22 W flags trace bn s hw cc block vc =
      runHistory22.loop W flags bn cc block block.header { vc with TraceJumpDest := true }
        block.transactions 0 (initVars s hw cc block) := rfl

/-- What `runHistory22` does, read off the loop invariant. -/
theorem runHistory22_inv (W : World) (flags : Flags) (trace : Bool) (bn s : Nat)
    (hw : HistoryWrapper22) (cc : ChainConfig) (block : Block) (vc : VmConfig) (hs : s < 2 ^ 64) :
    (runHistory22 W flags trace bn s hw cc block vc).steps.length ≤ block.transactions.length ∧
    (∀ k st, (runHistory22 W flags trace bn s hw cc block vc).steps[k]? = some st →
        st.idx = k ∧ block.transactions[k]? = some st.tx ∧
        st.ibs.stateReader.txNum = (s + k) % 2 ^ 64 ∧
        st.ibs.stateReader.r.txNum = (s + k) % 2 ^ 64 ∧
        st.ibs.txIndex = k ∧
        (∀ rc, st.res = .ok rc →
          st.after.txNum = (s + k + 1) % 2 ^ 64 ∧ st.after.r.txNum = (s + k + 1) % 2 ^ 64) ∧
        (∀ e, st.res = .error e →
          (runHistory22 W flags trace bn s hw cc block vc).steps.length = k + 1 ∧
          (runHistory22 W flags trace bn s hw cc block vc).err
            = some (.applyTx k st.tx.hash e) ∧
          (runHistory22 W flags trace bn s hw cc block vc).txNum = 0 ∧
          (runHistory22 W flags trace bn s hw cc block vc).receipts = [])) ∧
    ((runHistory22 W flags trace bn s hw cc block vc).err = none →
        (runHistory22 W flags trace bn s hw cc block vc).steps.length
          = block.transactions.length ∧
        (runHistory22 W flags trace bn s hw cc block vc).txNum
          = (s + block.transactions.length) % 2 ^ 64 ∧
        (runHistory22 W flags trace bn s hw cc block vc).receipts
          = (runHistory22 W flags trace bn s hw cc block vc).steps.filterMap TxStep.receipt ∧
        (∀ st ∈ (runHistory22 W flags trace bn s hw cc block vc).steps, ∃ rc, st.res = .ok rc)) := by
  rw [runHistory22_eq]
  obtain ⟨new, h1, h2, h3, h4⟩ := loop_inv W flags bn cc block block.header
    { vc with TraceJumpDest := true } block.transactions 0 (initVars s hw cc block) hs
  have hnew : (runHistory22.loop W flags bn cc block block.header { vc with TraceJumpDest := true }
      block.transactions 0 (initVars s hw cc block)).steps = new := by
    rw [h1]; simp [initVars]
  rw [hnew]
  refine ⟨h2, ?_, ?_⟩
  · intro k st hk
    have := h3 k st hk
    simpa [initVars] using this
  · intro herr
    have := h4 herr
    simpa [initVars] using this

theorem filterMap_receipt_getElem? (steps : List TxStep)
    (hall : ∀ st ∈ steps, ∃ rc, st.res = .ok rc) (k : Nat) (st : TxStep) (rc : Receipt × Nat × Nat)
    (hk : steps[k]? = some st) (hrc : st.res = .ok rc) :
    (steps.filterMap TxStep.receipt)[k]? = some rc.1 := by
  induction steps generalizing k with
  | nil => simp at hk
  | cons a t ih =>
    obtain ⟨rca, hrca⟩ := hall a (List.mem_cons_self _ _)
    have ha : TxStep.receipt a = some rca.1 := by simp [TxStep.receipt, hrca]
    rw [List.filterMap_cons_some ha]
    cases k with
    | zero =>
      simp only [List.getElem?_cons_zero, Option.some.injEq] at hk
      subst hk
      rw [hrca] at hrc
      cases hrc
      simp
    | succ k =>
      simp only [List.getElem?_cons_succ] at hk ⊢
      exact ih (fun st hst => hall st (List.mem_cons_of_mem _ hst)) k hk

theorem filterMap_receipt_length (steps : List TxStep)
    (hall : ∀ st ∈ steps, ∃ rc, st.res = .ok rc) :
    (steps.filterMap TxStep.receipt).length = steps.length := by
  induction steps with
  | nil => rfl
  | cons a t ih =>
    obtain ⟨rca, hrca⟩ := hall a (List.mem_cons_self _ _)
    have ha : TxStep.receipt a = some rca.1 := by simp [TxStep.receipt, hrca]
    rw [List.filterMap_cons_some ha]
    simp [ih (fun st hst => hall st (List.mem_cons_of_mem _ hst))]

/-! ## The block loop of `History22` -/

theorem loop_interrupted (W : World) (flags : Flags) (cc : ChainConfig) (vc : VmConfig)
    (fuel : Nat) (st : LoopState) (h : st.interrupt = true) :
    History22.loop W flags cc vc (fuel + 1) st = some { err := none, final := st } := by
  simp only [History22.loop, h, if_true]

theorem loop_past_stop (W : World) (flags : Flags) (cc : ChainConfig) (vc : VmConfig)
    (fuel : Nat) (st : LoopState) (h : st.interrupt = false)
    (hto : (st.blockNum + 1) % 2 ^ 64 > toUint64 flags.blockTo) :
    History22.loop W flags cc vc (fuel + 1) st =
      some { err := none, final := { st with blockNum := (st.blockNum + 1) % 2 ^ 64 } } := by
  simp only [History22.loop, h, hto, if_true, Bool.false_eq_true, if_false]

theorem loop_block_nil (W : World) (flags : Flags) (cc : ChainConfig) (vc : VmConfig)
    (fuel : Nat) (st : LoopState) (hash : Hash) (h : st.interrupt = false)
    (hto : ¬ (st.blockNum + 1) % 2 ^ 64 > toUint64 flags.blockTo)
    (hh : W.ReadCanonicalHash ((st.blockNum + 1) % 2 ^ 64) = .ok hash)
    (hb : W.BlockWithSenders hash ((st.blockNum + 1) % 2 ^ 64) = .ok none) :
    History22.loop W flags cc vc (fuel + 1) st =
      some { err := none,
             final := { st with blockNum := (st.blockNum + 1) % 2 ^ 64,
                                log := st.log ++ [.blockIsNil ((st.blockNum + 1) % 2 ^ 64)] } } := by
  simp only [History22.loop, h, hto, hh, hb, Bool.false_eq_true, if_false]

theorem loop_skip (W : World) (flags : Flags) (cc : ChainConfig) (vc : VmConfig)
    (fuel : Nat) (st : LoopState) (hash : Hash) (b : Block) (h : st.interrupt = false)
    (hto : ¬ (st.blockNum + 1) % 2 ^ 64 > toUint64 flags.blockTo)
    (hh : W.ReadCanonicalHash ((st.blockNum + 1) % 2 ^ 64) = .ok hash)
    (hb : W.BlockWithSenders hash ((st.blockNum + 1) % 2 ^ 64) = .ok (some b))
    (hk : (st.blockNum + 1) % 2 ^ 64 ≤ flags.block) :
    History22.loop W flags cc vc (fuel + 1) st =
      History22.loop W flags cc vc fuel (afterSkip st ((st.blockNum + 1) % 2 ^ 64) b) := by
  simp only [History22.loop, h, hto, hh, hb, hk, if_true, Bool.false_eq_true, if_false,
    afterSkip]

theorem loop_run_err (W : World) (flags : Flags) (cc : ChainConfig) (vc : VmConfig)
    (fuel : Nat) (st : LoopState) (hash : Hash) (b : Block) (e : Error)
    (h : st.interrupt = false)
    (hto : ¬ (st.blockNum + 1) % 2 ^ 64 > toUint64 flags.blockTo)
    (hh : W.ReadCanonicalHash ((st.blockNum + 1) % 2 ^ 64) = .ok hash)
    (hb : W.BlockWithSenders hash ((st.blockNum + 1) % 2 ^ 64) = .ok (some b))
    (hk : ¬ (st.blockNum + 1) % 2 ^ 64 ≤ flags.block)
    (he : (runOf W flags cc vc st ((st.blockNum + 1) % 2 ^ 64) b).err = some e) :
    History22.loop W flags cc vc (fuel + 1) st =
      some { err := some (.block ((st.blockNum + 1) % 2 ^ 64) e),
             final := { interrupt := st.interrupt, blockNum := (st.blockNum + 1) % 2 ^ 64,
                        txNum := (runOf W flags cc vc st ((st.blockNum + 1) % 2 ^ 64) b).txNum,
                        h := (runOf W flags cc vc st ((st.blockNum + 1) % 2 ^ 64) b).hw.r,
                        log := st.log,
                        runs := st.runs ++ [((st.blockNum + 1) % 2 ^ 64,
                          runOf W flags cc vc st ((st.blockNum + 1) % 2 ^ 64) b)] } } := by
  have he' := he
  simp only [runOf, wrapperFor] at he'
  by_cases ht : flags.traceBlock = 0
  · simp only [ht, ne_eq, not_true_eq_false, if_false] at he'
    simp only [History22.loop, h, hto, hh, hb, hk, Bool.false_eq_true, if_false, ht, ne_eq,
      not_true_eq_false, he', runOf, wrapperFor]
  · simp only [ht, ne_eq, not_false_eq_true, if_true] at he'
    simp only [History22.loop, h, hto, hh, hb, hk, Bool.false_eq_true, if_false, ht, ne_eq,
      not_false_eq_true, if_true, he', runOf, wrapperFor]

theorem loop_run_ok (W : World) (flags : Flags) (cc : ChainConfig) (vc : VmConfig)
    (fuel : Nat) (st : LoopState) (hash : Hash) (b : Block)
    (h : st.interrupt = false)
    (hto : ¬ (st.blockNum + 1) % 2 ^ 64 > toUint64 flags.blockTo)
    (hh : W.ReadCanonicalHash ((st.blockNum + 1) % 2 ^ 64) = .ok hash)
    (hb : W.BlockWithSenders hash ((st.blockNum + 1) % 2 ^ 64) = .ok (some b))
    (hk : ¬ (st.blockNum + 1) % 2 ^ 64 ≤ flags.block)
    (he : (runOf W flags cc vc st ((st.blockNum + 1) % 2 ^ 64) b).err = none) :
    History22.loop W flags cc vc (fuel + 1) st =
      match W.interruptCh ((st.blockNum + 1) % 2 ^ 64) with
      | some v =>
        History22.loop W flags cc vc fuel
          { afterRun st ((st.blockNum + 1) % 2 ^ 64)
              (runOf W flags cc vc st ((st.blockNum + 1) % 2 ^ 64) b) with
            interrupt := v,
            log := st.log ++ [.interrupted ((st.blockNum + 1) % 2 ^ 64)] }
      | none =>
        History22.loop W flags cc vc fuel
          (afterRun st ((st.blockNum + 1) % 2 ^ 64)
            (runOf W flags cc vc st ((st.blockNum + 1) % 2 ^ 64) b)) := by
  have he' := he
  simp only [runOf, wrapperFor] at he'
  by_cases ht : flags.traceBlock = 0
  · simp only [ht, ne_eq, not_true_eq_false, if_false] at he'
    simp only [History22.loop, h, hto, hh, hb, hk, Bool.false_eq_true, if_false, ht, ne_eq,
      not_true_eq_false, he', runOf, wrapperFor, afterRun]
  · simp only [ht, ne_eq, not_false_eq_true, if_true] at he'
    simp only [History22.loop, h, hto, hh, hb, hk, Bool.false_eq_true, if_false, ht, ne_eq,
      not_false_eq_true, if_true, he', runOf, wrapperFor, afterRun]

theorem toUint64_of_nonneg (i : Int) (n : Nat) (h1 : (n : Int) ≤ i) (h2 : i < 2 ^ 63) :
    n ≤ toUint64 i ∧ toUint64 i < 2 ^ 63 := by
  unfold toUint64
  omega

theorem runOf_txNum (W : World) (flags : Flags) (cc : ChainConfig) (vc : VmConfig) (st : LoopState)
    (bn : Nat) (b : Block) (he : (runOf W flags cc vc st bn b).err = none) :
    (runOf W flags cc vc st bn b).txNum = (st.txNum + 1 + b.transactions.length) % 2 ^ 64 ∧
    (runOf W flags cc vc st bn b).steps.length = b.transactions.length := by
  have := (runHistory22_inv W flags false bn ((st.txNum + 1) % 2 ^ 64) (wrapperFor flags st.h bn)
    cc b vc (Nat.mod_lt _ (by decide))).2.2 he
  refine ⟨?_, this.1⟩
  have h2 := this.2.1
  unfold runOf
  rw [h2]
  omega

theorem ordinalSum_drop (blocks : List Block) (j : Nat) (b : Block) (h : blocks[j]? = some b) :
    ordinalSum (blocks.drop j) = b.transactions.length + 2 + ordinalSum (blocks.drop (j + 1)) := by
  have hj : j < blocks.length := by
    rcases Nat.lt_or_ge j blocks.length with h' | h'
    · exact h'
    · rw [List.getElem?_eq_none h'] at h; cases h
  rw [List.drop_eq_getElem_cons hj]
  rw [List.getElem?_eq_getElem hj] at h
  cases h
  simp only [ordinalSum, List.map_cons, List.sum_cons]

/-! ## Claims about the driver -/

/-- C8. Execution failure is fatal. In any run of `runHistory22`, if the step
recorded for index `i` holds an engine error `e`, then that step is the last
one (no transaction of greater index is executed), it is for transaction `i`,
and `runHistory22` returns ordinal 0, no receipts and an error carrying `i`,
the transaction hash and `e`. And when this happens (at index `j`, with error
`e2`) in the run that `History22` makes for a block, the loop stops there,
whatever fuel is left, and `History22` returns that error wrapped with the
block number, the failed run being the last one recorded. -/
theorem execution_failure_is_fatal (W : World) (flags : Flags) (chainConfig : ChainConfig)
    (vmConfig : VmConfig) (trace : Bool) (blockNum s : Nat) (hw : HistoryWrapper22)
    (block : Block) (i : Nat) (step : TxStep) (e : Error)
    (fuel : Nat) (st : LoopState) (hash : Hash) (b : Block) (j : Nat) (step2 : TxStep)
    (e2 : Error)
    (hs : s < 2 ^ 64)
    (hstep : (runHistory22 W flags trace blockNum s hw chainConfig block vmConfig).steps[i]?
      = some step)
    (hfail : step.res = .error e)
    (hrun : st.interrupt = false)
    (hto : (st.blockNum + 1) % 2 ^ 64 ≤ toUint64 flags.blockTo)
    (hh : W.ReadCanonicalHash ((st.blockNum + 1) % 2 ^ 64) = .ok hash)
    (hb : W.BlockWithSenders hash ((st.blockNum + 1) % 2 ^ 64) = .ok (some b))
    (hexec : flags.block < (st.blockNum + 1) % 2 ^ 64)
    (hstep2 : (runOf W flags chainConfig vmConfig st ((st.blockNum + 1) % 2 ^ 64) b).steps[j]?
      = some step2)
    (hfail2 : step2.res = .error e2) :
    (step.idx = i ∧ block.transactions[i]? = some step.tx ∧
      (runHistory22 W flags trace blockNum s hw chainConfig block vmConfig).steps.length = i + 1 ∧
      (runHistory22 W flags trace blockNum s hw chainConfig block vmConfig).err
        = some (.applyTx i step.tx.hash e) ∧
      (runHistory22 W flags trace blockNum s hw chainConfig block vmConfig).txNum = 0 ∧
      (runHistory22 W flags trace blockNum s hw chainConfig block vmConfig).receipts = []) ∧
    (∃ final, History22.loop W flags chainConfig vmConfig (fuel + 1) st
        = some { err := some (.block ((st.blockNum + 1) % 2 ^ 64)
                   (.applyTx j step2.tx.hash e2)),
                 final := final } ∧
      b.transactions[j]? = some step2.tx ∧
      final.blockNum = (st.blockNum + 1) % 2 ^ 64 ∧
      final.runs = st.runs ++ [((st.blockNum + 1) % 2 ^ 64,
        runOf W flags chainConfig vmConfig st ((st.blockNum + 1) % 2 ^ 64) b)] ∧
      (runOf W flags chainConfig vmConfig st ((st.blockNum + 1) % 2 ^ 64) b).steps.length
        = j + 1) := by
  constructor
  · obtain ⟨_, hsteps, _⟩ :=
      runHistory22_inv W flags trace blockNum s hw chainConfig block vmConfig hs
    obtain ⟨h1, h2, _, _, _, _, h7⟩ := hsteps i step hstep
    obtain ⟨g1, g2, g3, g4⟩ := h7 e hfail
    exact ⟨h1, h2, g1, g2, g3, g4⟩
  · obtain ⟨_, hsteps, _⟩ :=
      runHistory22_inv W flags false ((st.blockNum + 1) % 2 ^ 64) ((st.txNum + 1) % 2 ^ 64)
        (wrapperFor flags st.h ((st.blockNum + 1) % 2 ^ 64)) chainConfig b vmConfig
        (Nat.mod_lt _ (by decide))
    obtain ⟨_, h2, _, _, _, _, h7⟩ := hsteps j step2 hstep2
    obtain ⟨g1, g2, _, _⟩ := h7 e2 hfail2
    exact ⟨_, loop_run_err W flags chainConfig vmConfig fuel st hash b _ hrun (by omega) hh hb
      (by omega) g2, h2, rfl, rfl, g1⟩

/-- C8, at a concrete chain: the second of three transactions of block 1
fails; `History22` returns the error with the block number, the index and the
hash. -/
theorem execution_failure_is_fatal_witness :
    (History22 (demoWorld [demoBlock 1 3] (some [1]) (fun _ => none))
        { block := 0, traceBlock := 0, blockTo := 1 } {} (constStore .nil) 1).map
        (fun out => out.err)
      = some (some (.block 1 (.applyTx 1 [1] (.ext "execution failed")))) := by
  obtain ⟨_, final, hloop, _⟩ := execution_failure_is_fatal
    (demoWorld [demoBlock 1 3] (some [1]) (fun _ => none))
    { block := 0, traceBlock := 0, blockTo := 1 } {} {} false 1 3 { r := constStore .nil }
    (demoBlock 1 3) 1
    { idx := 1, tx := { hash := [1] }, gp := 0, usedGas := 21000,
      ibs := stepCtx (demoBlock 1 3) { hash := [1] } 1
        (varsAfter { block := 0, traceBlock := 0, blockTo := 1 } 1 (demoBlock 1 3) { hash := [0] } 0
          (initVars 3 { r := constStore .nil } {} (demoBlock 1 3)) ({ GasUsed := 21000 }, 0, 21000)),
      res := .error (.ext "execution failed"),
      after := stamp { r := constStore .nil } 4 }
    (.ext "execution failed") 0
    { interrupt := false, blockNum := 0, txNum := 2, h := constStore .nil } [] (demoBlock 1 3) 1
    { idx := 1, tx := { hash := [1] }, gp := 0, usedGas := 21000,
      ibs := stepCtx (demoBlock 1 3) { hash := [1] } 1
        (varsAfter { block := 0, traceBlock := 0, blockTo := 1 } 1 (demoBlock 1 3) { hash := [0] } 0
          (initVars 3 { r := constStore .nil } {} (demoBlock 1 3)) ({ GasUsed := 21000 }, 0, 21000)),
      res := .error (.ext "execution failed"),
      after := stamp { r := constStore .nil } 4 }
    (.ext "execution failed")
    (by decide) rfl rfl rfl (by decide) rfl rfl (by decide) rfl rfl
  simp only [History22]
  rw [hloop]
  rfl

/-- C5, refuted at a concrete run. Block 1 has five transactions and the
interrupt arrives while it is executed, so the poll at the end of block 1
finds it (`B = 1`). All five transactions are executed, the ordinal ends at
`2 + 5 + 2 = 9`, block 2 is not run, and the block number in the
"next time start with --block" line is 1, that is `B`, not `B + 1 = 2`. -/
theorem interrupt_reports_current_block :
    (History22 (demoWorld [demoBlock 1 5, demoBlock 2 1] none
        (fun n => if n = 1 then some true else none))
        { block := 0, traceBlock := 0, blockTo := 2 } {} (constStore .nil) 3).map
        (fun out => (out.err, out.final.log, out.final.txNum,
          out.final.runs.map (fun r => (r.1, r.2.steps.length))))
      = some (none, [LogLine.interrupted 1], 9, [(1, 5)]) ∧
    LogLine.interrupted 1 ≠ LogLine.interrupted (1 + 1) := by
  constructor
  · rfl
  · decide

/-- C5, as the code has it. For every block `B` that is being executed (found,
not past the stop block, not skipped by the checkpoint) when the interrupt
arrives, so that the poll at the end of `B` receives `true`: if no transaction
of `B` fails, then with fuel for two iterations `History22` ends without
error, having executed every transaction of `B` (the run of `B` is the last
one recorded and has one step per transaction), with the ordinal past the
post-block slot of `B` (`+ c_B + 2`), without fetching block `B + 1`
(`blockNum` is still `B`), and the block number in its "next time start with
--block" line is `B`. -/
theorem interrupt_stops_after_block (W : World) (flags : Flags) (chainConfig : ChainConfig)
    (vmConfig : VmConfig) (fuel : Nat) (st : LoopState) (hash : Hash) (b : Block)
    (hrun : st.interrupt = false)
    (hto : (st.blockNum + 1) % 2 ^ 64 ≤ toUint64 flags.blockTo)
    (hh : W.ReadCanonicalHash ((st.blockNum + 1) % 2 ^ 64) = .ok hash)
    (hb : W.BlockWithSenders hash ((st.blockNum + 1) % 2 ^ 64) = .ok (some b))
    (hexec : flags.block < (st.blockNum + 1) % 2 ^ 64)
    (hok : (runOf W flags chainConfig vmConfig st ((st.blockNum + 1) % 2 ^ 64) b).err = none)
    (hsig : W.interruptCh ((st.blockNum + 1) % 2 ^ 64) = some true)
    (hfuel : 2 ≤ fuel) :
    ∃ out, History22.loop W flags chainConfig vmConfig fuel st = some out ∧
      out.err = none ∧
      out.final.runs = st.runs ++ [((st.blockNum + 1) % 2 ^ 64,
        runOf W flags chainConfig vmConfig st ((st.blockNum + 1) % 2 ^ 64) b)] ∧
      (runOf W flags chainConfig vmConfig st ((st.blockNum + 1) % 2 ^ 64) b).steps.length
        = b.transactions.length ∧
      out.final.txNum = (st.txNum + b.transactions.length + 2) % 2 ^ 64 ∧
      out.final.blockNum = (st.blockNum + 1) % 2 ^ 64 ∧
      out.final.log = st.log ++ [.interrupted ((st.blockNum + 1) % 2 ^ 64)] := by
  obtain ⟨fuel', rfl⟩ : ∃ f, fuel = f + 2 := ⟨fuel - 2, by omega⟩
  obtain ⟨htx, hlen⟩ := runOf_txNum W flags chainConfig vmConfig st _ b hok
  rw [loop_run_ok W flags chainConfig vmConfig (fuel' + 1) st hash b hrun (by omega) hh hb
    (by omega) hok, hsig]
  dsimp only
  rw [loop_interrupted W flags chainConfig vmConfig fuel' _ rfl]
  refine ⟨_, rfl, rfl, rfl, hlen, ?_, rfl, rfl⟩
  simp only [afterRun]
  rw [htx]
  omega

/-- C5 as the code has it, at the concrete run: block 1 with five
transactions, interrupted. -/
theorem interrupt_stops_after_block_witness :
    ∃ out, History22.loop (demoWorld [demoBlock 1 5, demoBlock 2 1] none
        (fun n => if n = 1 then some true else none))
        { block := 0, traceBlock := 0, blockTo := 2 } {} {} 3
        { interrupt := false, blockNum := 0, txNum := 2, h := constStore .nil } = some out ∧
      out.final.txNum = 9 ∧ out.final.blockNum = 1 ∧ out.final.log = [.interrupted 1] := by
  obtain ⟨out, h1, _, _, _, h5, h6, h7⟩ := interrupt_stops_after_block
    (demoWorld [demoBlock 1 5, demoBlock 2 1] none (fun n => if n = 1 then some true else none))
    { block := 0, traceBlock := 0, blockTo := 2 } {} {} 3
    { interrupt := false, blockNum := 0, txNum := 2, h := constStore .nil } [] (demoBlock 1 5)
    rfl (by decide) rfl rfl (by decide) rfl rfl (by decide)
  exact ⟨out, h1, h5, h6, h7⟩

/-- C6, refuted at the concrete scenario. A block with 3 transactions followed
by a block with none, both executed, ordinal 2 on entry: the ordinal is 7 (not
10) after the first block's post-block increment and 9 (not 12) after the
second's. Shown both from the start of `History22` (blocks 1 and 2) and from
the loop state "block 9 done, ordinal 2" with checkpoint 9 (blocks 10 and 11). -/
theorem two_block_scenario_is_7_and_9 :
    ((History22 (demoWorld [demoBlock 1 3, demoBlock 2 0] none (fun _ => none))
        { block := 0, traceBlock := 0, blockTo := 1 } {} (constStore .nil) 3).map
        (fun out => out.final.txNum) = some 7 ∧
     (History22 (demoWorld [demoBlock 1 3, demoBlock 2 0] none (fun _ => none))
        { block := 0, traceBlock := 0, blockTo := 2 } {} (constStore .nil) 3).map
        (fun out => out.final.txNum) = some 9) ∧
    ((History22.loop (demoWorld [demoBlock 10 3, demoBlock 11 0] none (fun _ => none))
        { block := 9, traceBlock := 0, blockTo := 10 } {} {} 3
        { interrupt := false, blockNum := 9, txNum := 2, h := constStore .nil }).map
        (fun out => out.final.txNum) = some 7 ∧
     (History22.loop (demoWorld [demoBlock 10 3, demoBlock 11 0] none (fun _ => none))
        { block := 9, traceBlock := 0, blockTo := 11 } {} {} 3
        { interrupt := false, blockNum := 9, txNum := 2, h := constStore .nil }).map
        (fun out => out.final.txNum) = some 9) ∧
    (7 : Nat) ≠ 10 ∧ (9 : Nat) ≠ 12 := by
  refine ⟨⟨rfl, rfl⟩, ⟨rfl, rfl⟩, by decide, by decide⟩

/-- C6, as the code has it. A block with 3 transactions followed by a block
with none, neither skipped by the checkpoint, no transaction failing (the run
of the first block returns no error) and no interrupt observed, with the
ordinal equal to 2 on entry to the first: when
the run stops after the first block the ordinal is 7 (after its post-block
increment), and when it stops after the second the final ordinal is 9
(`2 + (3 + 2) + (0 + 2)`). -/
theorem two_block_scenario (W : World) (flags : Flags) (chainConfig : ChainConfig)
    (vmConfig : VmConfig) (fuel : Nat) (st : LoopState) (hash1 hash2 : Hash) (b1 b2 : Block)
    (hrun : st.interrupt = false) (hentry : st.txNum = 2) (hrange : st.blockNum + 3 < 2 ^ 64)
    (hexec : flags.block ≤ st.blockNum)
    (hh1 : W.ReadCanonicalHash (st.blockNum + 1) = .ok hash1)
    (hb1 : W.BlockWithSenders hash1 (st.blockNum + 1) = .ok (some b1))
    (hc1 : b1.transactions.length = 3)
    (hh2 : W.ReadCanonicalHash (st.blockNum + 2) = .ok hash2)
    (hb2 : W.BlockWithSenders hash2 (st.blockNum + 2) = .ok (some b2))
    (hc2 : b2.transactions.length = 0)
    (hnofail : (runOf W flags chainConfig vmConfig st (st.blockNum + 1) b1).err = none)
    (hnosig : NoInterrupt W) (hfuel : 3 ≤ fuel) :
    (toUint64 flags.blockTo = st.blockNum + 1 →
      ∃ out, History22.loop W flags chainConfig vmConfig fuel st = some out ∧
        out.err = none ∧ out.final.txNum = 7) ∧
    (toUint64 flags.blockTo = st.blockNum + 2 →
      ∃ out, History22.loop W flags chainConfig vmConfig fuel st = some out ∧
        out.err = none ∧ out.final.txNum = 9) := by
  obtain ⟨fuel', rfl⟩ : ∃ f, fuel = f + 3 := ⟨fuel - 3, by omega⟩
  have hbn1 : (st.blockNum + 1) % 2 ^ 64 = st.blockNum + 1 := Nat.mod_eq_of_lt (by omega)
  have he1 := hnofail
  obtain ⟨htx1, _⟩ := runOf_txNum W flags chainConfig vmConfig st (st.blockNum + 1) b1 he1
  generalize hst1 : afterRun st (st.blockNum + 1)
    (runOf W flags chainConfig vmConfig st (st.blockNum + 1) b1) = st1
  have hrun1 : st1.interrupt = false := by rw [← hst1]; exact hrun
  have hnum1 : st1.blockNum = st.blockNum + 1 := by rw [← hst1]; rfl
  have htxn1 : st1.txNum = 7 := by
    rw [← hst1]
    simp only [afterRun]
    rw [htx1, hc1, hentry]
    rfl
  rw [← hbn1] at hh1 hb1
  have hstep1 : st.blockNum + 1 ≤ toUint64 flags.blockTo →
      History22.loop W flags chainConfig vmConfig (fuel' + 2 + 1) st
        = History22.loop W flags chainConfig vmConfig (fuel' + 2) st1 := by
    intro hge
    rw [loop_run_ok W flags chainConfig vmConfig (fuel' + 2) st hash1 b1 hrun (by omega) hh1 hb1
      (by omega) (by rw [hbn1]; exact he1), hnosig]
    dsimp only
    rw [hbn1, hst1]
  rw [show fuel' + 3 = fuel' + 2 + 1 from rfl]
  have hbn2 : (st1.blockNum + 1) % 2 ^ 64 = st.blockNum + 2 := by rw [hnum1]; omega
  constructor
  · intro hstop
    rw [hstep1 (by omega)]
    exact ⟨_, loop_past_stop W flags chainConfig vmConfig (fuel' + 1) st1 hrun1 (by omega), rfl,
      htxn1⟩
  · intro hstop
    rw [hstep1 (by omega)]
    have he2 : (runOf W flags chainConfig vmConfig st1 (st.blockNum + 2) b2).err = none := by
      have hnil : b2.transactions = [] := List.length_eq_zero.mp hc2
      unfold runOf
      rw [runHistory22_eq, hnil]
      rfl
    obtain ⟨htx2, _⟩ := runOf_txNum W flags chainConfig vmConfig st1 (st.blockNum + 2) b2 he2
    generalize hst2 : afterRun st1 (st.blockNum + 2)
      (runOf W flags chainConfig vmConfig st1 (st.blockNum + 2) b2) = st2
    have hrun2 : st2.interrupt = false := by rw [← hst2]; exact hrun1
    have hnum2 : st2.blockNum = st.blockNum + 2 := by rw [← hst2]; rfl
    have htxn2 : st2.txNum = 9 := by
      rw [← hst2]
      simp only [afterRun]
      rw [htx2, hc2, htxn1]
      rfl
    rw [← hbn2] at hh2 hb2
    have hstep2 : History22.loop W flags chainConfig vmConfig (fuel' + 1 + 1) st1
        = History22.loop W flags chainConfig vmConfig (fuel' + 1) st2 := by
      rw [loop_run_ok W flags chainConfig vmConfig (fuel' + 1) st1 hash2 b2 hrun1 (by omega) hh2
        hb2 (by omega) (by rw [hbn2]; exact he2), hnosig]
      dsimp only
      rw [hbn2, hst2]
    rw [show fuel' + 2 = fuel' + 1 + 1 from rfl, hstep2]
    exact ⟨_, loop_past_stop W flags chainConfig vmConfig fuel' st2 hrun2 (by omega), rfl, htxn2⟩

/-- C6 as the code has it, at the concrete scenario of blocks 10 and 11 with
checkpoint 9. -/
theorem two_block_scenario_witness :
    ∃ out, History22.loop (demoWorld [demoBlock 10 3, demoBlock 11 0] none (fun _ => none))
        { block := 9, traceBlock := 0, blockTo := 11 } {} {} 3
        { interrupt := false, blockNum := 9, txNum := 2, h := constStore .nil } = some out ∧
      out.err = none ∧ out.final.txNum = 9 :=
  (two_block_scenario (demoWorld [demoBlock 10 3, demoBlock 11 0] none (fun _ => none))
    { block := 9, traceBlock := 0, blockTo := 11 } {} {} 3
    { interrupt := false, blockNum := 9, txNum := 2, h := constStore .nil } [] []
    (demoBlock 10 3) (demoBlock 11 0) rfl rfl (by decide) (by decide) rfl rfl rfl rfl rfl rfl
    rfl (fun _ => rfl) (by decide)).2 rfl

/-! ## What the transaction loop hands to the engine, and what a read returns -/

theorem stamp_stamp (hw : HistoryWrapper22) (a b : Nat) : stamp (stamp hw a) b = stamp hw b := rfl

theorem varsAfter_daoBlock (flags : Flags) (bn : Nat) (block : Block) (tx : Transaction) (i : Nat)
    (x : RunVars) (rc : Receipt × Nat × Nat) :
    (varsAfter flags bn block tx i x rc).daoBlock = false := by
  simp only [varsAfter]
  cases x.daoBlock <;> rfl

/-- What the transaction loop hands to the engine, from any state of its
variables: each recorded result is the engine's answer on the recorded
arguments, the execution context is built on the wrapper stamped with the
current ordinal, and the gas values are threaded from one call to the next. -/
theorem loop_calls (W : World) (flags : Flags) (bn : Nat) (cc : ChainConfig) (block : Block)
    (hd : Header) (vc : VmConfig) (txs : List Transaction) :
    ∀ (i : Nat) (x : RunVars), x.txNum < 2 ^ 64 →
    ∃ new : List TxStep,
      (runHistory22.loop W flags bn cc block hd vc txs i x).steps = x.steps ++ new ∧
      (∀ k st, new[k]? = some st →
        st.res = W.ApplyTransaction cc st.gp st.ibs hd st.tx st.usedGas vc ∧
        st.ibs.stateReader = stamp x.hw ((x.txNum + k) % 2 ^ 64) ∧
        st.ibs.thash = st.tx.hash ∧ st.ibs.bhash = block.hash ∧
        st.ibs.daoForkApplied = (decide (k = 0) && x.daoBlock) ∧
        (k = 0 → st.gp = x.gp ∧ st.usedGas = x.usedGas) ∧
        (∀ st' rc, new[k + 1]? = some st' → st.res = .ok rc →
          st'.gp = rc.2.1 ∧ st'.usedGas = rc.2.2) ∧
        (∀ rc, st.res = .ok rc → st.after = stamp x.hw ((x.txNum + k + 1) % 2 ^ 64))) ∧
      ((runHistory22.loop W flags bn cc block hd vc txs i x).err = none → txs ≠ [] →
        (runHistory22.loop W flags bn cc block hd vc txs i x).hw
          = stamp x.hw (runHistory22.loop W flags bn cc block hd vc txs i x).txNum) := by
  induction txs with
  | nil =>
    intro i x _
    refine ⟨[], by simp [loop_nil], ?_, ?_⟩
    · intro k st h; simp at h
    · intro _ h; exact absurd rfl h
  | cons tx rest ih =>
    intro i x hx
    have hctx : (stepCtx block tx i x).stateReader = stamp x.hw (x.txNum % 2 ^ 64) := by
      rw [Nat.mod_eq_of_lt hx]
      simp only [stepCtx, IntraBlockState.Prepare]
      cases x.daoBlock <;> rfl
    have hdao : (stepCtx block tx i x).daoForkApplied = (decide (0 = 0) && x.daoBlock) := by
      simp only [stepCtx, IntraBlockState.Prepare]
      cases x.daoBlock <;> rfl
    cases h : W.ApplyTransaction cc x.gp (stepCtx block tx i x) hd tx x.usedGas vc with
    | error e =>
      rw [loop_cons_err W flags bn cc block hd vc tx rest i x e h]
      refine ⟨[{ idx := i, tx := tx, gp := x.gp, ibs := stepCtx block tx i x,
                 usedGas := x.usedGas, res := .error e,
                 after := stamp x.hw x.txNum }], rfl, ?_, ?_⟩
      · intro k st hk
        cases k with
        | zero =>
          simp only [List.getElem?_cons_zero, Option.some.injEq] at hk
          subst hk
          refine ⟨h.symm, hctx, rfl, rfl, hdao, fun _ => ⟨rfl, rfl⟩, ?_, ?_⟩
          · intro st' rc hst' _; simp at hst'
          · intro rc hrc; cases hrc
        | succ k => simp at hk
      · intro herr; cases herr
    | ok rc =>
      rw [loop_cons_ok W flags bn cc block hd vc tx rest i x rc h]
      have hx' : (varsAfter flags bn block tx i x rc).txNum < 2 ^ 64 :=
        Nat.mod_lt _ (by decide)
      obtain ⟨new, hsteps, hk, hfin⟩ := ih (i + 1) (varsAfter flags bn block tx i x rc) hx'
      have hv : (varsAfter flags bn block tx i x rc).txNum = (x.txNum + 1) % 2 ^ 64 := rfl
      have hvh : (varsAfter flags bn block tx i x rc).hw = stamp x.hw ((x.txNum + 1) % 2 ^ 64) :=
        rfl
      refine ⟨{ idx := i, tx := tx, gp := x.gp, ibs := stepCtx block tx i x,
                usedGas := x.usedGas, res := .ok rc,
                after := stamp x.hw ((x.txNum + 1) % 2 ^ 64) } :: new, ?_, ?_, ?_⟩
      · rw [hsteps]; simp [varsAfter]
      · intro k st hst
        cases k with
        | zero =>
          simp only [List.getElem?_cons_zero, Option.some.injEq] at hst
          subst hst
          refine ⟨h.symm, hctx, rfl, rfl, hdao, fun _ => ⟨rfl, rfl⟩, ?_, ?_⟩
          · intro st' rc' hst' hrc'
            simp only [List.getElem?_cons_succ] at hst'
            simp only [Except.ok.injEq] at hrc'
            subst hrc'
            obtain ⟨_, _, _, _, _, g, _, _⟩ := hk 0 st' hst'
            exact g rfl
          · intro _ _; rfl
        | succ k =>
          simp only [List.getElem?_cons_succ] at hst
          obtain ⟨h1, h2, h3, h4, h5, _, h7, h8⟩ := hk k st hst
          rw [hv, hvh, stamp_stamp, mod_step] at h2
          rw [varsAfter_daoBlock] at h5
          refine ⟨h1, h2, h3, h4, ?_, ?_, ?_, ?_⟩
          · rw [h5]; simp
          · intro hzero; omega
          · intro st' rc' hst' hrc'
            simp only [List.getElem?_cons_succ] at hst'
            exact h7 st' rc' hst' hrc'
          · intro rc' hrc'
            have := h8 rc' hrc'
            rw [hv, hvh, stamp_stamp, mod_step'] at this
            exact this
      · intro herr _
        by_cases hrest : rest = []
        · subst hrest
          rw [loop_nil]
          rfl
        · rw [hfin herr hrest, hvh, stamp_stamp]

theorem ReadAccountStorage_result (hw : HistoryWrapper22) (address : Address) (inc : Nat)
    (key : Hash) :
    (ReadAccountStorage hw address inc key).run.2
      = some (hw.r.ReadAccountStorageBeforeTxNum address key hw.txNum) := by
  unfold ReadAccountStorage
  simp only [Go.run, bind, Go.andThen, ask]
  cases hw.r.ReadAccountStorageBeforeTxNum address key hw.txNum with
  | error e => rfl
  | ok enc => cases enc <;> cases hw.trace <;> rfl

theorem ReadAccountCode_result (hw : HistoryWrapper22) (address : Address) (inc : Nat)
    (codeHash : Hash) :
    (ReadAccountCode hw address inc codeHash).run.2
      = some (hw.r.ReadAccountCodeBeforeTxNum address hw.txNum) := by
  unfold ReadAccountCode
  simp only [Go.run, bind, Go.andThen, ask]
  cases hw.r.ReadAccountCodeBeforeTxNum address hw.txNum with
  | error e => rfl
  | ok enc => cases hw.trace <;> rfl

theorem ReadAccountCodeSize_result (hw : HistoryWrapper22) (address : Address) (inc : Nat)
    (codeHash : Hash) :
    (ReadAccountCodeSize hw address inc codeHash).run.2
      = some (hw.r.ReadAccountCodeSizeBeforeTxNum address hw.txNum) := by
  unfold ReadAccountCodeSize
  simp only [Go.run, bind, Go.andThen, ask]
  cases hw.r.ReadAccountCodeSizeBeforeTxNum address hw.txNum with
  | error e => rfl
  | ok enc => cases hw.trace <;> rfl

theorem ReadAccountData_result_error (ech : Hash) (hw : HistoryWrapper22) (address : Address)
    (e : Error) (h : hw.r.ReadAccountDataBeforeTxNum address hw.txNum = .error e) :
    (ReadAccountData ech hw address).run.2 = some (.error e) := by
  unfold ReadAccountData
  simp only [Go.run, bind, Go.andThen, ask, h]
  rfl

theorem ReadAccountData_result_ok (ech : Hash) (hw : HistoryWrapper22) (address : Address)
    (enc : GoBytes) (h : hw.r.ReadAccountDataBeforeTxNum address hw.txNum = .ok enc) :
    (ReadAccountData ech hw address).run.2
      = (ReadAccountData ech { r := constStore enc, txNum := hw.txNum, trace := hw.trace }
          address).run.2 := by
  unfold ReadAccountData
  simp only [h]
  rfl

/-- What `runHistory22` hands to the engine, read off `loop_calls`. -/
theorem runHistory22_calls (W : World) (flags : Flags) (trace : Bool) (bn s : Nat)
    (hw : HistoryWrapper22) (cc : ChainConfig) (block : Block) (vc : VmConfig) (hs : s < 2 ^ 64) :
    (∀ k st, (runHistory22 W flags trace bn s hw cc block vc).steps[k]? = some st →
        st.res = W.ApplyTransaction cc st.gp st.ibs block.header st.tx st.usedGas
          { vc with TraceJumpDest := true } ∧
        st.ibs.stateReader = stamp hw ((s + k) % 2 ^ 64) ∧
        st.ibs.thash = st.tx.hash ∧ st.ibs.bhash = block.hash ∧
        st.ibs.daoForkApplied = (decide (k = 0) && (initVars s hw cc block).daoBlock) ∧
        (k = 0 → st.gp = 0 + block.header.GasLimit ∧ st.usedGas = 0) ∧
        (∀ st' rc, (runHistory22 W flags trace bn s hw cc block vc).steps[k + 1]? = some st' →
          st.res = .ok rc → st'.gp = rc.2.1 ∧ st'.usedGas = rc.2.2) ∧
        (∀ rc, st.res = .ok rc → st.after = stamp hw ((s + k + 1) % 2 ^ 64))) ∧
    ((runHistory22 W flags trace bn s hw cc block vc).err = none → block.transactions ≠ [] →
      (runHistory22 W flags trace bn s hw cc block vc).hw
        = stamp hw (runHistory22 W flags trace bn s hw cc block vc).txNum) := by
  rw [runHistory22_eq]
  obtain ⟨new, h1, h2, h3⟩ := loop_calls W flags bn cc block block.header
    { vc with TraceJumpDest := true } block.transactions 0 (initVars s hw cc block) hs
  have hnew : (runHistory22.loop W flags bn cc block block.header { vc with TraceJumpDest := true }
      block.transactions 0 (initVars s hw cc block)).steps = new := by
    rw [h1]; simp [initVars]
  rw [hnew]
  refine ⟨?_, ?_⟩
  · intro k st hk
    exact h2 k st hk
  · intro herr hne
    exact h3 herr hne

/-! ## The bracket claim -/

/-- C9. The ordinal increment brackets each transaction. For a block with `n`
transactions run by `runHistory22` from start ordinal `s` on the wrapper `hw`
without engine failure (ordinals are `uint64`, so sums are taken modulo
`2 ^ 64`; they are the plain sums whenever `s + n < 2 ^ 64`):
* there are exactly `n` engine calls, in transaction order; the result kept
  for transaction `i` is what `W.ApplyTransaction` returns on the recorded
  arguments, the gas values being those the previous call returned;
* the execution context of call `i` reads through the wrapper `hw` with its
  `txNum` field and the ordinal set on the store both equal to `s + i`; every
  read made through it asks the store at ordinal `s + i` and returns the
  store's answer at that ordinal (decoded, for account data);
* when iteration `i` ends the wrapper is `hw` with both ordinals `s + i + 1`,
  and after the last one the wrapper left behind has both equal to `s + n`;
* `runHistory22` returns `s + n` and exactly `n` receipts, the `i`-th being
  the receipt the engine returned for transaction `i`. -/
theorem runHistory22_brackets_transactions (W : World) (flags : Flags) (trace : Bool)
    (blockNum s : Nat) (hw : HistoryWrapper22) (chainConfig : ChainConfig) (block : Block)
    (vmConfig : VmConfig) (emptyCodeHash : Hash)
    (hs : s < 2 ^ 64)
    (hok : (runHistory22 W flags trace blockNum s hw chainConfig block vmConfig).err = none) :
    (runHistory22 W flags trace blockNum s hw chainConfig block vmConfig).steps.length
      = block.transactions.length ∧
    (∀ i, i < block.transactions.length →
      ∃ st rc, (runHistory22 W flags trace blockNum s hw chainConfig block vmConfig).steps[i]?
          = some st ∧
        st.idx = i ∧ block.transactions[i]? = some st.tx ∧
        W.ApplyTransaction chainConfig st.gp st.ibs block.header st.tx st.usedGas
          { vmConfig with TraceJumpDest := true } = .ok rc ∧
        st.res = .ok rc ∧
        (i = 0 → st.gp = 0 + block.header.GasLimit ∧ st.usedGas = 0) ∧
        (∀ st', (runHistory22 W flags trace blockNum s hw chainConfig block vmConfig).steps[i + 1]?
            = some st' → st'.gp = rc.2.1 ∧ st'.usedGas = rc.2.2) ∧
        st.ibs.txIndex = i ∧ st.ibs.thash = st.tx.hash ∧ st.ibs.bhash = block.hash ∧
        st.ibs.stateReader = stamp hw ((s + i) % 2 ^ 64) ∧
        st.ibs.stateReader.txNum = (s + i) % 2 ^ 64 ∧
        st.ibs.stateReader.r.txNum = (s + i) % 2 ^ 64 ∧
        (∀ address incarnation key codeHash,
          ((ReadAccountData emptyCodeHash st.ibs.stateReader address).run.1.queries
              = [.accountData address ((s + i) % 2 ^ 64)] ∧
            (∀ e, hw.r.ReadAccountDataBeforeTxNum address ((s + i) % 2 ^ 64) = .error e →
              (ReadAccountData emptyCodeHash st.ibs.stateReader address).run.2
                = some (.error e)) ∧
            (∀ enc, hw.r.ReadAccountDataBeforeTxNum address ((s + i) % 2 ^ 64) = .ok enc →
              (ReadAccountData emptyCodeHash st.ibs.stateReader address).run.2
                = (ReadAccountData emptyCodeHash
                    { r := constStore enc, txNum := (s + i) % 2 ^ 64, trace := hw.trace }
                    address).run.2)) ∧
          ((ReadAccountStorage st.ibs.stateReader address incarnation key).run.1.queries
              = [.storage address key ((s + i) % 2 ^ 64)] ∧
            (ReadAccountStorage st.ibs.stateReader address incarnation key).run.2
              = some (hw.r.ReadAccountStorageBeforeTxNum address key ((s + i) % 2 ^ 64))) ∧
          ((ReadAccountCode st.ibs.stateReader address incarnation codeHash).run.1.queries
              = [.code address ((s + i) % 2 ^ 64)] ∧
            (ReadAccountCode st.ibs.stateReader address incarnation codeHash).run.2
              = some (hw.r.ReadAccountCodeBeforeTxNum address ((s + i) % 2 ^ 64))) ∧
          ((ReadAccountCodeSize st.ibs.stateReader address incarnation codeHash).run.1.queries
              = [.codeSize address ((s + i) % 2 ^ 64)] ∧
            (ReadAccountCodeSize st.ibs.stateReader address incarnation codeHash).run.2
              = some (hw.r.ReadAccountCodeSizeBeforeTxNum address ((s + i) % 2 ^ 64)))) ∧
        st.after = stamp hw ((s + i + 1) % 2 ^ 64) ∧
        st.after.txNum = (s + i + 1) % 2 ^ 64 ∧
        st.after.r.txNum = (s + i + 1) % 2 ^ 64 ∧
        (runHistory22 W flags trace blockNum s hw chainConfig block vmConfig).receipts[i]?
          = some rc.1) ∧
    (runHistory22 W flags trace blockNum s hw chainConfig block vmConfig).txNum
      = (s + block.transactions.length) % 2 ^ 64 ∧
    (runHistory22 W flags trace blockNum s hw chainConfig block vmConfig).receipts.length
      = block.transactions.length ∧
    (block.transactions ≠ [] →
      (runHistory22 W flags trace blockNum s hw chainConfig block vmConfig).hw
        = stamp hw ((s + block.transactions.length) % 2 ^ 64)) ∧
    (s + block.transactions.length < 2 ^ 64 →
      (runHistory22 W flags trace blockNum s hw chainConfig block vmConfig).txNum
        = s + block.transactions.length ∧
      ∀ i, i ≤ block.transactions.length → (s + i) % 2 ^ 64 = s + i) := by
  obtain ⟨_, hsteps, hres⟩ :=
    runHistory22_inv W flags trace blockNum s hw chainConfig block vmConfig hs
  obtain ⟨hcalls, hfin⟩ :=
    runHistory22_calls W flags trace blockNum s hw chainConfig block vmConfig hs
  obtain ⟨hlen, htx, hrec, hall⟩ := hres hok
  refine ⟨hlen, ?_, htx, ?_, ?_, ?_⟩
  · intro i hi
    have hi' : i < (runHistory22 W flags trace blockNum s hw chainConfig block vmConfig).steps.length := by
      rw [hlen]; exact hi
    have hget : (runHistory22 W flags trace blockNum s hw chainConfig block vmConfig).steps[i]?
        = some ((runHistory22 W flags trace blockNum s hw chainConfig block vmConfig).steps[i]) :=
      List.getElem?_eq_getElem hi'
    obtain ⟨h1, h2, h3, h4, h5, h6, _⟩ := hsteps i _ hget
    obtain ⟨c1, c2, c3, c4, _, c6, c7, c8⟩ := hcalls i _ hget
    obtain ⟨rc, hrc⟩ := hall _ (List.getElem_mem hi')
    obtain ⟨h6a, h6b⟩ := h6 rc hrc
    refine ⟨_, rc, hget, h1, h2, ?_, hrc, c6, ?_, h5, c3, c4, c2, h3, h4, ?_, c8 rc hrc, h6a, h6b,
      ?_⟩
    · rw [← c1]; exact hrc
    · intro st' hst'
      exact c7 st' rc hst' hrc
    · intro address incarnation key codeHash
      rw [ReadAccountData_queries, ReadAccountStorage_queries, ReadAccountCode_queries,
        ReadAccountCodeSize_queries, ReadAccountStorage_result, ReadAccountCode_result,
        ReadAccountCodeSize_result, h3]
      refine ⟨⟨rfl, ?_, ?_⟩, ⟨rfl, ?_⟩, ⟨rfl, ?_⟩, ⟨rfl, ?_⟩⟩
      · intro e he
        apply ReadAccountData_result_error
        rw [c2]; exact he
      · intro enc henc
        have := ReadAccountData_result_ok emptyCodeHash _ address enc
          (show (runHistory22 W flags trace blockNum s hw chainConfig block
              vmConfig).steps[i].ibs.stateReader.r.ReadAccountDataBeforeTxNum address
              (runHistory22 W flags trace blockNum s hw chainConfig block
                vmConfig).steps[i].ibs.stateReader.txNum = .ok enc by
            rw [c2]; exact henc)
        rw [this, c2]
        rfl
      · rw [c2]; rfl
      · rw [c2]; rfl
      · rw [c2]; rfl
    · rw [hrec]
      exact filterMap_receipt_getElem? _ hall i _ rc hget hrc
  · rw [hrec, filterMap_receipt_length _ hall, hlen]
  · intro hne
    rw [hfin hok hne, htx]
  · intro hsmall
    refine ⟨by rw [htx]; exact Nat.mod_eq_of_lt hsmall, ?_⟩
    intro i hi
    exact Nat.mod_eq_of_lt (by omega)

/-- C9, at a concrete block: three transactions from start ordinal 3, with an
engine that reads through the wrapper it is handed and a store that answers
with the ordinal it is asked at. The receipt of transaction 1 shows ordinal 4,
and the three receipts show 3, 4, 5, both in the wrapper field and in what the
store was asked. -/
theorem runHistory22_brackets_transactions_witness :
    ((3 : Nat) < 2 ^ 64 ∧
      (runHistory22 probeWorld { block := 0 } false 1 3 { r := probeStore } {}
        (demoBlock 1 3) {}).err = none) ∧
    ((runHistory22 probeWorld { block := 0 } false 1 3 { r := probeStore } {}
        (demoBlock 1 3) {}).receipts[1]?).map (fun rc => rc.GasUsed) = some 4 ∧
    (runHistory22 probeWorld { block := 0 } false 1 3 { r := probeStore } {}
        (demoBlock 1 3) {}).receipts
      = [{ GasUsed := 3, body := [3] }, { GasUsed := 4, body := [4] },
         { GasUsed := 5, body := [5] }] ∧
    (runHistory22 probeWorld { block := 0 } false 1 3 { r := probeStore } {}
        (demoBlock 1 3) {}).txNum = 6 := by
  refine ⟨⟨by decide, rfl⟩, ?_, rfl, rfl⟩
  obtain ⟨_, hsteps, _⟩ := runHistory22_brackets_transactions probeWorld { block := 0 } false 1 3
    { r := probeStore } {} (demoBlock 1 3) {} zeroHash (by decide) rfl
  obtain ⟨st, rc, _, _, _, hcall, _, _, _, _, _, _, hreader, _, _, _, _, _, _, hrec⟩ :=
    hsteps 1 (by decide)
  rw [hrec]
  simp only [probeWorld, Except.ok.injEq] at hcall
  rw [← hcall, hreader]
  rfl

/-! ## The final ordinal -/

theorem engine_ok (W : World) (flags : Flags) (bn : Nat) (cc : ChainConfig) (block : Block)
    (hd : Header) (vc : VmConfig) (txs : List Transaction)
    (hW : ∀ tx ∈ txs, ∀ gp ibs ug, ibs.thash = tx.hash → ibs.bhash = block.hash →
      ∃ rc, W.ApplyTransaction cc gp ibs hd tx ug vc = .ok rc) :
    ∀ (i : Nat) (x : RunVars), (runHistory22.loop W flags bn cc block hd vc txs i x).err = none := by
  induction txs with
  | nil => intro i x; rfl
  | cons tx rest ih =>
    intro i x
    obtain ⟨rc, hrc⟩ := hW tx (List.mem_cons_self _ _) x.gp (stepCtx block tx i x) x.usedGas
      rfl rfl
    rw [loop_cons_ok W flags bn cc block hd vc tx rest i x rc hrc]
    exact ih (fun tx' h' => hW tx' (List.mem_cons_of_mem _ h')) _ _

theorem runOf_ok (W : World) (flags : Flags) (cc : ChainConfig) (vc : VmConfig) (st : LoopState)
    (bn : Nat) (b : Block) (blocks : List Block) (hb : b ∈ blocks)
    (hW : NoTxFails W cc vc blocks) :
    (runOf W flags cc vc st bn b).err = none := by
  unfold runOf
  rw [runHistory22_eq]
  exact engine_ok W flags bn cc b _ _ _ (fun tx htx => hW b hb tx htx) _ _

/-- From the state after `j` blocks, with enough fuel the loop ends without
error and the final ordinal is the current one plus the contributions of the
remaining blocks. -/
theorem loop_sum (W : World) (flags : Flags) (cc : ChainConfig) (vc : VmConfig)
    (blocks : List Block) (hserve : Serves W flags blocks) (hW : NoTxFails W cc vc blocks)
    (hsig : NoInterrupt W) (hto : (blocks.length : Int) ≤ flags.blockTo)
    (hto2 : flags.blockTo < 2 ^ 63) :
    ∀ (fuel j : Nat) (st : LoopState), st.blockNum = j → st.interrupt = false →
      st.txNum < 2 ^ 64 → j ≤ blocks.length → blocks.length - j < fuel →
      ∃ out, History22.loop W flags cc vc fuel st = some out ∧ out.err = none ∧
        out.final.txNum = (st.txNum + ordinalSum (blocks.drop j)) % 2 ^ 64 := by
  obtain ⟨hN, hT⟩ := toUint64_of_nonneg flags.blockTo blocks.length hto hto2
  intro fuel
  induction fuel with
  | zero => intro j st _ _ _ _ hf; omega
  | succ fuel ih =>
    intro j st hj hi htx hjN hf
    have hbn : (st.blockNum + 1) % 2 ^ 64 = j + 1 := by rw [hj]; omega
    by_cases hto' : (st.blockNum + 1) % 2 ^ 64 > toUint64 flags.blockTo
    · -- past the stop block: only possible after the last block
      have hjN' : j = blocks.length := by omega
      refine ⟨_, loop_past_stop W flags cc vc fuel st hi hto', rfl, ?_⟩
      simp only [hjN', List.drop_length, ordinalSum, List.map_nil, List.sum_nil, Nat.add_zero]
      exact (Nat.mod_eq_of_lt htx).symm
    · obtain ⟨hash, hh, hb⟩ := hserve (j + 1) (by omega) (by omega) (by omega)
      rw [← hbn] at hh hb
      simp only [hbn, Nat.add_sub_cancel] at hb
      by_cases hlast : j = blocks.length
      · have hnone : blocks[j]? = none := by rw [hlast]; simp
        rw [hnone] at hb
        rw [← hbn] at hb
        refine ⟨_, loop_block_nil W flags cc vc fuel st hash hi hto' hh hb, rfl, ?_⟩
        simp only [hlast, List.drop_length, ordinalSum, List.map_nil, List.sum_nil, Nat.add_zero]
        exact (Nat.mod_eq_of_lt htx).symm
      · have hjlt : j < blocks.length := by omega
        have hsome : blocks[j]? = some blocks[j] := List.getElem?_eq_getElem hjlt
        rw [hsome] at hb
        rw [← hbn] at hb
        have hsum := ordinalSum_drop blocks j _ hsome
        by_cases hk : (st.blockNum + 1) % 2 ^ 64 ≤ flags.block
        · rw [loop_skip W flags cc vc fuel st hash _ hi hto' hh hb hk]
          obtain ⟨out, h1, h2, h3⟩ := ih (j + 1) (afterSkip st ((st.blockNum + 1) % 2 ^ 64) blocks[j])
            hbn hi (Nat.mod_lt _ (by decide)) (by omega) (by omega)
          refine ⟨out, h1, h2, ?_⟩
          rw [h3, hsum]
          simp only [afterSkip]
          omega
        · have he := runOf_ok W flags cc vc st ((st.blockNum + 1) % 2 ^ 64) blocks[j] blocks
            (List.getElem_mem hjlt) hW
          rw [loop_run_ok W flags cc vc fuel st hash _ hi hto' hh hb hk he, hsig]
          obtain ⟨out, h1, h2, h3⟩ := ih (j + 1)
            (afterRun st ((st.blockNum + 1) % 2 ^ 64)
              (runOf W flags cc vc st ((st.blockNum + 1) % 2 ^ 64) blocks[j]))
            hbn hi (Nat.mod_lt _ (by decide)) (by omega) (by omega)
          refine ⟨out, h1, h2, ?_⟩
          rw [h3, hsum]
          simp only [afterRun]
          rw [(runOf_txNum W flags cc vc st _ _ he).1]
          omega

theorem demoWorld_never_fails (blocks served : List Block) (cc : ChainConfig) (vc : VmConfig)
    (sig : Nat → Option Bool) : NoTxFails (demoWorld served none sig) cc vc blocks := by
  intro b _ tx _ gp ibs ug _ _
  exact ⟨_, rfl⟩

theorem demoWorld_serves (flags : Flags) (sig : Nat → Option Bool) :
    Serves (demoWorld [demoBlock 1 3, demoBlock 2 2] none sig) flags
      [demoBlock 1 3, demoBlock 2 2] := by
  intro n h1 h2 _
  simp only [List.length_cons, List.length_nil] at h2
  refine ⟨[], rfl, ?_⟩
  interval_cases n <;> rfl

/-- C1. For every sequence of `N` blocks (numbered `1 .. N`) with transaction
counts `c_1 .. c_N`, every stop block `>= N` and every resume checkpoint `k`:
if all blocks are found, no transaction fails (the engine returns a receipt on
every transaction of these blocks) and no interrupt is observed, then with
enough fuel (`N + 1` iterations) the loop ends without error and the ordinal
it holds is the initial ordinal plus the sum of `c_i + 2`, modulo `2 ^ 64`. So
does `History22` itself, whose initial ordinal is 2, and the result is the
same for every checkpoint: a skipped block consumes as many ordinals as an
executed one. -/
theorem final_ordinal_is_sum (W : World) (flags : Flags) (chainConfig : ChainConfig)
    (vmConfig : VmConfig) (h : Aggregator) (blocks : List Block) (t0 fuel : Nat)
    (hfound : Serves W flags blocks) (hnofail : NoTxFails W chainConfig vmConfig blocks)
    (hnosig : NoInterrupt W)
    (hstop : (blocks.length : Int) ≤ flags.blockTo) (hint : flags.blockTo < 2 ^ 63)
    (hk : flags.block ≤ blocks.length) (ht0 : t0 < 2 ^ 64) (hfuel : blocks.length < fuel) :
    (∃ out, History22.loop W flags chainConfig vmConfig fuel
        { interrupt := false, blockNum := 0, txNum := t0, h := h } = some out ∧
      out.err = none ∧ out.final.txNum = (t0 + ordinalSum blocks) % 2 ^ 64) ∧
    (∃ out, History22 W flags chainConfig h fuel = some out ∧
      out.err = none ∧ out.final.txNum = (2 + ordinalSum blocks) % 2 ^ 64) ∧
    (∀ k, k ≤ blocks.length →
      ∃ out, History22 W { flags with block := k } chainConfig h fuel = some out ∧
        out.err = none ∧ out.final.txNum = (2 + ordinalSum blocks) % 2 ^ 64) := by
  have _ := hk
  have hnofail' : NoTxFails W chainConfig {} blocks := hnofail
  refine ⟨?_, ?_, ?_⟩
  · have := loop_sum W flags chainConfig vmConfig blocks hfound hnofail hnosig hstop hint fuel 0
      { interrupt := false, blockNum := 0, txNum := t0, h := h } rfl rfl ht0 (Nat.zero_le _)
      (by omega)
    simpa using this
  · have := loop_sum W flags chainConfig {} blocks hfound hnofail' hnosig hstop hint fuel 0
      { interrupt := false, blockNum := 0, txNum := 2, h := h } rfl rfl
      (show 2 < 2 ^ 64 by decide) (Nat.zero_le _) (by omega)
    simpa [History22] using this
  · intro k _
    have hfound' : Serves W { flags with block := k } blocks := hfound
    have := loop_sum W { flags with block := k } chainConfig {} blocks hfound' hnofail' hnosig
      hstop hint fuel 0 { interrupt := false, blockNum := 0, txNum := 2, h := h } rfl rfl
      (show 2 < 2 ^ 64 by decide) (Nat.zero_le _) (by omega)
    simpa [History22] using this

/-- C1, at a concrete chain: a block with 3 transactions and one with 2, stop
block 2. With checkpoint 1 the first block is skipped and the second is
executed (the one recorded run is of block 2 and has two engine calls); with
checkpoint 0 both are executed. Either way the run ends without error with
ordinal `2 + (3 + 2) + (2 + 2) = 11`. -/
theorem final_ordinal_is_sum_witness :
    (Serves (demoWorld [demoBlock 1 3, demoBlock 2 2] none (fun _ => none))
        { block := 1, traceBlock := 0, blockTo := 2 } [demoBlock 1 3, demoBlock 2 2] ∧
      NoTxFails (demoWorld [demoBlock 1 3, demoBlock 2 2] none (fun _ => none)) {} {}
        [demoBlock 1 3, demoBlock 2 2] ∧
      NoInterrupt (demoWorld [demoBlock 1 3, demoBlock 2 2] none (fun _ => none))) ∧
    (∃ out, History22 (demoWorld [demoBlock 1 3, demoBlock 2 2] none (fun _ => none))
        { block := 1, traceBlock := 0, blockTo := 2 } {} (constStore .nil) 3 = some out ∧
      out.err = none ∧ out.final.txNum = 11) ∧
    (∃ out, History22 (demoWorld [demoBlock 1 3, demoBlock 2 2] none (fun _ => none))
        { block := 0, traceBlock := 0, blockTo := 2 } {} (constStore .nil) 3 = some out ∧
      out.err = none ∧ out.final.txNum = 11) ∧
    (History22 (demoWorld [demoBlock 1 3, demoBlock 2 2] none (fun _ => none))
        { block := 1, traceBlock := 0, blockTo := 2 } {} (constStore .nil) 3).map
        (fun out => out.final.runs.map (fun r => (r.1, r.2.steps.length))) = some [(2, 2)] :=
  ⟨⟨demoWorld_serves _ _, demoWorld_never_fails _ _ _ _ _, fun _ => rfl⟩,
   (final_ordinal_is_sum (demoWorld [demoBlock 1 3, demoBlock 2 2] none (fun _ => none))
    { block := 1, traceBlock := 0, blockTo := 2 } {} {} (constStore .nil)
    [demoBlock 1 3, demoBlock 2 2] 2 3 (demoWorld_serves _ _) (demoWorld_never_fails _ _ _ _ _)
    (fun _ => rfl) (by decide) (by decide) (by decide) (by decide) (by decide)).2.1,
   (final_ordinal_is_sum (demoWorld [demoBlock 1 3, demoBlock 2 2] none (fun _ => none))
    { block := 1, traceBlock := 0, blockTo := 2 } {} {} (constStore .nil)
    [demoBlock 1 3, demoBlock 2 2] 2 3 (demoWorld_serves _ _) (demoWorld_never_fails _ _ _ _ _)
    (fun _ => rfl) (by decide) (by decide) (by decide) (by decide) (by decide)).2.2 0
    (by decide),
   rfl⟩

end Erigon
